import Mathlib

/-!
Verification development for the OpenAPI-spec reduction engine
(`reduce_openapi_spec.py`).

The Python program is shallowly embedded: JSON values become the inductive
type `Json`, Python dictionaries become association lists with Python's
insertion-order update semantics (`pySetKey`, `pyDict`), fallible Python
code (dictionary indexing, attribute access, `st.stop`) returns
`Except PyErr`, and the unbounded recursion of `add_missing_schemas` is
given explicit fuel together with a proved sufficient bound.  All
definitions are executable so that theorems about concrete documents are
settled by evaluation.
-/

/-- Python exception outcomes relevant to the program: `keyError` models a
`KeyError` from `d[k]`, `typeError` models `TypeError`/`AttributeError`
from operating on a value of the wrong shape, `appStop` models the handled
error path `st.error(e); st.stop()` inside `load_api_spec`'s `try` block,
and `fuelOut` is the embedding's artificial marker for exhausted recursion
fuel (the theorems prove it is never reached at the stated bound). -/
inductive PyErr where
  | keyError (k : String)
  | typeError
  | appStop
  | fuelOut
deriving DecidableEq, Repr

/-- JSON values as produced by Python's `json.load`: objects are
association lists in insertion order. -/
inductive Json where
  | null
  | bool (b : Bool)
  | num (n : Int)
  | str (s : String)
  | arr (xs : List Json)
  | obj (fields : List (String × Json))

/-- Lookup in a Python dictionary represented as an association list
(first matching key; post-`json.load` objects have unique keys). -/
def dictLookup {α : Type} [BEq α] {β : Type} (l : List (α × β)) (k : α) : Option β :=
  (l.find? (fun p => p.1 == k)).map (fun p => p.2)

/-- View a JSON value as a Python dict, failing (as Python's
`AttributeError`/`TypeError` would) on any other shape. -/
def Json.asObj : Json → Except PyErr (List (String × Json))
  | .obj fs => .ok fs
  | _ => .error .typeError

/-- Python `d[k]` on a JSON object: `KeyError` when absent. -/
def Json.index (j : Json) (k : String) : Except PyErr Json :=
  match j with
  | .obj fs =>
    match dictLookup fs k with
    | some v => .ok v
    | none => .error (.keyError k)
  | _ => .error .typeError

/-- Python `d.get(k)` on a JSON object: `none` when absent. -/
def Json.pyGet (j : Json) (k : String) : Except PyErr (Option Json) :=
  match j with
  | .obj fs => .ok (dictLookup fs k)
  | _ => .error .typeError

/-- A character matched by `\w` in the reference-scanning regex
(ASCII word characters). -/
def isWordChar (c : Char) : Bool :=
  (('a' ≤ c) && (c ≤ 'z')) || (('A' ≤ c) && (c ≤ 'Z')) ||
    (('0' ≤ c) && (c ≤ '9')) || (c == '_')

/-- The literal part of the regex `#/components/schemas/(\w+)`. -/
def refMarker : List Char := "#/components/schemas/".data

/-- One left-to-right scan of `re.findall(r"#/components/schemas/(\w+)", s)`:
at each position, if the literal marker matches and is followed by at least
one word character, the maximal word-character run is captured and scanning
resumes after it; otherwise scanning advances one character.  The fuel is
an upper bound on the remaining text length. -/
def scanRefs : Nat → List Char → List String
  | 0, _ => []
  | _, [] => []
  | fuel + 1, c :: cs =>
    if refMarker.isPrefixOf (c :: cs) then
      let rest := (c :: cs).drop refMarker.length
      let w := rest.takeWhile isWordChar
      if w.isEmpty then scanRefs fuel cs
      else String.mk w :: scanRefs fuel (rest.dropWhile isWordChar)
    else scanRefs fuel cs

/-- `re.findall(r"#/components/schemas/(\w+)", s)` (line 28 of the source). -/
def findRefs (s : String) : List String :=
  scanRefs s.data.length s.data

/-- Python `str.replace`: replace every non-overlapping occurrence of
`pat`, scanning left to right.  Fuel bounds the remaining text length. -/
def replaceAux : Nat → List Char → List Char → List Char → List Char
  | 0, s, _, _ => s
  | _, [], _, _ => []
  | fuel + 1, c :: cs, pat, repl =>
    if pat.isPrefixOf (c :: cs) then
      repl ++ replaceAux fuel ((c :: cs).drop pat.length) pat repl
    else
      c :: replaceAux fuel cs pat repl

/-- `s.replace(pat, repl)` for a non-empty pattern (the program only uses
the 21-character marker as the pattern). -/
def pyReplace (s pat repl : String) : String :=
  String.mk (replaceAux s.data.length s.data pat.data repl.data)

/-- Lowercase hexadecimal digit, as used by `json.dumps` escapes. -/
def hexDigitChar (n : Nat) : Char :=
  if n < 10 then Char.ofNat (48 + n) else Char.ofNat (87 + n)

/-- Escape one character the way `json.dumps` (with its default
`ensure_ascii=True`) renders characters inside a string literal. -/
def escapeJsonChar (c : Char) : List Char :=
  if c == '"' then ['\\', '"']
  else if c == '\\' then ['\\', '\\']
  else if c == '\n' then ['\\', 'n']
  else if c == '\t' then ['\\', 't']
  else if c == '\r' then ['\\', 'r']
  else if c == Char.ofNat 8 then ['\\', 'b']
  else if c == Char.ofNat 12 then ['\\', 'f']
  else if c.toNat < 32 || 128 ≤ c.toNat then
    ['\\', 'u', hexDigitChar (c.toNat / 4096 % 16), hexDigitChar (c.toNat / 256 % 16),
      hexDigitChar (c.toNat / 16 % 16), hexDigitChar (c.toNat % 16)]
  else [c]

/-- A JSON string literal as rendered by `json.dumps`. -/
def jsonEscape (s : String) : String :=
  String.mk ('"' :: s.data.foldr (fun c acc => escapeJsonChar c ++ acc) ['"'])

mutual
/-- `json.dumps(v)` with its default separators `", "` and `": "`,
as used at line 81 to serialize every schema body for reference scanning. -/
def dumps : Json → String
  | .null => "null"
  | .bool true => "true"
  | .bool false => "false"
  | .num n => toString n
  | .str s => jsonEscape s
  | .arr xs => "[" ++ dumpsArr xs ++ "]"
  | .obj fs => "\x7b" ++ dumpsObj fs ++ "\x7d"

/-- Comma-separated rendering of a JSON array's elements. -/
def dumpsArr : List Json → String
  | [] => ""
  | [x] => dumps x
  | x :: y :: rest => dumps x ++ ", " ++ dumpsArr (y :: rest)

/-- Comma-separated rendering of a JSON object's entries. -/
def dumpsObj : List (String × Json) → String
  | [] => ""
  | [(k, v)] => jsonEscape k ++ ": " ++ dumps v
  | (k, v) :: p :: rest => jsonEscape k ++ ": " ++ dumps v ++ ", " ++ dumpsObj (p :: rest)
end

/-- Python dict assignment `d[k] = v`: update in place when the key is
present (keeping its position), otherwise append at the end. -/
def pySetKey {α : Type} [BEq α] {β : Type} (l : List (α × β)) (k : α) (v : β) :
    List (α × β) :=
  if l.any (fun p => p.1 == k) then l.map (fun p => if p.1 == k then (k, v) else p)
  else l ++ [(k, v)]

/-- Build a Python dict from a sequence of key/value pairs, later pairs
overwriting earlier ones — the semantics of the dict comprehension
`{op.op_id: op for op in operations_list}` at line 87. -/
def pyDict {α : Type} [BEq α] {β : Type} (l : List (α × β)) : List (α × β) :=
  l.foldl (fun acc kv => pySetKey acc kv.1 kv.2) []

/-- The value a Python dict built from `l` associates with `k`:
the last pair with that key wins. -/
def lastLookup {α : Type} [BEq α] {β : Type} (l : List (α × β)) (k : α) : Option β :=
  l.foldl (fun acc kv => if kv.1 == k then some kv.2 else acc) none

/-- `list(set(l))` / iteration order of `set(l)`, modelled as first-occurrence
deduplication (CPython's set order is unspecified; no theorem below depends
on the order, only on membership). -/
def pySet (l : List String) : List String :=
  l.foldl (fun acc x => if acc.contains x then acc else acc ++ [x]) []

/-- The `Operation` dataclass (lines 10–20).  `op_id` and `summary` are
`Option`s because `op.get(...)` yields Python `None` when the field is
absent (or JSON `null`). -/
structure Operation where
  op_id : Option String
  verb : String
  path : String
  summary : Option Json
  tag : String
  schemas : List String

/-- `add_missing_schemas(schema, all_schemas, schema_list)` (lines 27–32):
scan the serialized body of `schema` for direct references, append those
not already in the list, and recurse into each appended name.  Looking up a
name absent from the index raises `KeyError`, exactly as `all_schemas[schema]`
does.  The fuel bounds the recursion depth; `fuelOut` is proved unreachable
at the bound established below. -/
def add_missing_schemas (idx : List (String × String)) :
    Nat → String → List String → Except PyErr (List String)
  | 0, _, _ => .error .fuelOut
  | fuel + 1, schema, schema_list =>
    match dictLookup idx schema with
    | none => .error (.keyError schema)
    | some body =>
      let new_matches := (findRefs body).filter (fun m => !(schema_list.contains m))
      new_matches.foldlM (fun acc m => add_missing_schemas idx fuel m acc)
        (schema_list ++ new_matches)

/-- Lines 54–55: `for schema in set(schemas): add_missing_schemas(schema,
all_schemas, schemas)` — expand every distinct seed, accumulating into the
same list. -/
def closure_of (idx : List (String × String)) (fuel : Nat) (schemas : List String) :
    Except PyErr (List String) :=
  (pySet schemas).foldlM (fun acc s => add_missing_schemas idx fuel s acc) schemas

/-- `add_schemas_from_operation(data, schemas)` (lines 35–42): for each media
type under `data["content"]`, take `schema.$ref` when present, strip the
marker, and append the name. -/
def add_schemas_from_operation (data : Json) (schemas : List String) :
    Except PyErr (List String) := do
  let contentOpt ← data.pyGet "content"
  match contentOpt with
  | none => .ok schemas
  | some Json.null => .ok schemas
  | some content => do
    let cf ← content.asObj
    cf.foldlM (fun acc rt => do
      let rtf ← rt.2.asObj
      let sv := (dictLookup rtf "schema").getD (Json.obj [])
      let svf ← sv.asObj
      match dictLookup svf "$ref" with
      | none => pure acc
      | some Json.null => pure acc
      | some (Json.str s) => pure (acc ++ [pyReplace s "#/components/schemas/" ""])
      | some _ => .error .typeError) schemas

/-- The `operationId`/`tags` extraction at lines 56–60: absent or `null`
fields behave like Python `None`; identifiers and tags are modelled as
strings (the only shapes the program's catalog semantics give meaning to).  -/
def extractOpId (op : Json) : Except PyErr (Option String) := do
  let idOpt ← op.pyGet "operationId"
  match idOpt with
  | none => pure none
  | some Json.null => pure none
  | some (Json.str s) => pure (some s)
  | some _ => .error .typeError

/-- `tags_list = op.get("tags", []); tag = tags_list[0] if tags_list else
"No tag"` (lines 56–57). -/
def extractTag (op : Json) : Except PyErr String := do
  let tagsOpt ← op.pyGet "tags"
  match tagsOpt with
  | none => pure "No tag"
  | some Json.null => pure "No tag"
  | some (Json.arr []) => pure "No tag"
  | some (Json.arr (Json.str t :: _)) => pure t
  | some _ => .error .typeError

/-- Lines 49–51: the seed schemas contributed by the optional request body
(`op.get("requestBody")` returning Python `None` contributes nothing). -/
def requestSeeds (bodyOpt : Option Json) : Except PyErr (List String) :=
  match bodyOpt with
  | none => pure []
  | some Json.null => pure []
  | some body => add_schemas_from_operation body []

/-- One verb entry of `parse_path` (continued): the extraction pipeline for
one operation object. -/
def ppStep (path : String) (all_schemas : List (String × String)) (fuel : Nat)
    (result : List Operation) (vo : String × Json) : Except PyErr (List Operation) := do
  let verb := vo.1
  let op := vo.2
  let bodyOpt ← op.pyGet "requestBody"
  let schemas ← requestSeeds bodyOpt
  let responses ← op.index "responses"
  let rf ← responses.asObj
  let schemas ← rf.foldlM (fun acc r => add_schemas_from_operation r.2 acc) schemas
  let schemas ← closure_of all_schemas fuel schemas
  let tag ← extractTag op
  let opId ← extractOpId op
  let summary ← op.pyGet "summary"
  pure (result ++ [(⟨opId, verb, path, summary, tag, pySet schemas⟩ : Operation)])

/-- `parse_path(path, operations, all_schemas)` (lines 45–69) as the fold of
`ppStep` over the verb entries of the path item. -/
def parse_path (path : String) (operations : Json) (all_schemas : List (String × String))
    (fuel : Nat) : Except PyErr (List Operation) := do
  let ops ← operations.asObj
  ops.foldlM (ppStep path all_schemas fuel) []

/-- One iteration of lines 84–85: extend `operations_list` with the parse
of one path item. -/
def olStep (schemas : List (String × String)) (fuel : Nat) (acc : List Operation)
    (p : String × Json) : Except PyErr (List Operation) := do
  let ops ← parse_path p.1 p.2 schemas fuel
  pure (acc ++ ops)

/-- Lines 83–85 as the fold of `olStep` over the entries of `paths`. -/
def operations_list_of (spec : Json) (schemas : List (String × String)) (fuel : Nat) :
    Except PyErr (List Operation) := do
  let paths ← spec.index "paths"
  let pf ← paths.asObj
  pf.foldlM (olStep schemas fuel) []

/-- Lines 89–92: group the catalog's operations by tag.  `itertools.groupby`
yields consecutive runs which the loop merges via `setdefault`/`extend`;
run-by-run extension in order is the same as appending each operation to
its tag's group in sequence. -/
def group_operations_of (ops : List Operation) : List (String × List Operation) :=
  ops.foldl (fun acc op =>
    if acc.any (fun p => p.1 == op.tag) then
      acc.map (fun p => if p.1 == op.tag then (p.1, p.2 ++ [op]) else p)
    else acc ++ [(op.tag, [op])]) []

/-- `load_api_spec` (lines 72–93).  The `try` block catches a missing or
`null` top-level `openapi` marker (and a non-dict document) and stops the
app (`appStop`); everything after line 81 runs outside the `try`, so a
document without `components.schemas` raises an uncaught `KeyError`.
Returns `(spec, schemas, operations, group_operations)`. -/
def load_api_spec (spec : Json) (fuel : Nat) :
    Except PyErr
      (Json × List (String × String) × List (Option String × Operation) ×
        List (String × List Operation)) := do
  match spec.pyGet "openapi" with
  | .error _ => .error .appStop
  | .ok none => .error .appStop
  | .ok (some Json.null) => .error .appStop
  | .ok (some _) => do
    let comps ← spec.index "components"
    let schemasJson ← comps.index "schemas"
    let sf ← schemasJson.asObj
    let schemas := sf.map (fun kv => (kv.1, dumps kv.2))
    let opsList ← operations_list_of spec schemas fuel
    let operations := pyDict (opsList.map (fun op => (op.op_id, op)))
    let groups := group_operations_of (operations.map (fun p => p.2))
    .ok (spec, schemas, operations, groups)

/-- One iteration of lines 119–120: `selected_schemas.extend(
operations[operation_id].schemas)`; an identifier missing from the catalog
raises `KeyError`. -/
def ssStep (operations : List (Option String × Operation)) (acc : List String)
    (id : String) : Except PyErr (List String) :=
  match dictLookup operations (some id) with
  | some op => pure (acc ++ op.schemas)
  | none => .error (.keyError id)

/-- Lines 117–122: the union of the selected operations' schema sets,
deduplicated by `list(set(...))`. -/
def selected_schemas_of (operations : List (Option String × Operation))
    (sel : List String) : Except PyErr (List String) := do
  let all ← sel.foldlM (ssStep operations) ([] : List String)
  pure (pySet all)

/-- One iteration of the paths loop at lines 138–143:
`reduced_spec["paths"].setdefault(op.path, {});
reduced_spec["paths"][op.path][op.verb] = spec["paths"][op.path][op.verb]`. -/
def bpStep (spec : Json) (operations : List (Option String × Operation))
    (paths : List (String × Json)) (id : String) : Except PyErr (List (String × Json)) := do
  match dictLookup operations (some id) with
  | none => .error (.keyError id)
  | some op => do
    let cur := (dictLookup paths op.path).getD (Json.obj [])
    let curFs ← cur.asObj
    let spPaths ← spec.index "paths"
    let item ← spPaths.index op.path
    let orig ← item.index op.verb
    pure (pySetKey paths op.path (Json.obj (pySetKey curFs op.verb orig)))

/-- The paths loop at lines 138–143, starting from the empty dict of
line 135. -/
def buildPaths (spec : Json) (operations : List (Option String × Operation))
    (sel : List String) : Except PyErr (List (String × Json)) :=
  sel.foldlM (bpStep spec operations) []

/-- One iteration of lines 145–148: copy one selected schema's definition
verbatim from the source document into the rebuilt schemas dict. -/
def sfStep (spec : Json) (acc : List (String × Json)) (name : String) :
    Except PyErr (List (String × Json)) := do
  let comps ← spec.index "components"
  let sch ← comps.index "schemas"
  let v ← sch.index name
  pure (pySetKey acc name v)

/-- The schemas loop at lines 145–148 as the fold of `sfStep`, starting from
the empty dict of line 136. -/
def schemaFold (spec : Json) (ss : List String) : Except PyErr (List (String × Json)) :=
  ss.foldlM (sfStep spec) []

/-- Lines 116–148 as one function: compute the selected schema union, then
produce `deepcopy(spec)` with `paths` and `components["schemas"]` replaced
by the rebuilt objects (in the functional model a deep copy is the value
itself; every other key of the document and of `components` is untouched). -/
def reduced_spec_of (spec : Json) (operations : List (Option String × Operation))
    (sel : List String) : Except PyErr Json := do
  let ss ← selected_schemas_of operations sel
  let specFs ← spec.asObj
  let comps ← spec.index "components"
  let compsFs ← comps.asObj
  let pathsF ← buildPaths spec operations sel
  let schemaPairs ← schemaFold spec ss
  pure (Json.obj (pySetKey (pySetKey specFs "paths" (Json.obj pathsF)) "components"
    (Json.obj (pySetKey compsFs "schemas" (Json.obj schemaPairs)))))

/-- Lookup a top-level key of a document (observation helper). -/
def docLookup (j : Json) (k : String) : Option Json :=
  match j with
  | .obj fs => dictLookup fs k
  | _ => none

/-- The operation object a document's `paths` associates with `(path, verb)`
(observation helper; `none` when any level is absent or not an object). -/
def pathVerbDoc (j : Json) (p v : String) : Option Json :=
  (docLookup j "paths").bind (fun item => (docLookup item p).bind (fun it => docLookup it v))

/-- The schema definition a document associates with `name` under
`components.schemas` (observation helper). -/
def schemaLookupDoc (j : Json) (name : String) : Option Json :=
  (docLookup j "components").bind (fun c => (docLookup c "schemas").bind
    (fun s => docLookup s name))

/-- All names that can ever be appended by `add_missing_schemas`: every
reference token occurring in any serialized body of the index. -/
def refsUniverse (idx : List (String × String)) : List String :=
  (idx.map (fun p => findRefs p.2)).join

/-- The number of universe names not yet in the accumulated list — the
measure that shrinks every time the recursion descends. -/
def missCount (idx : List (String × String)) (lst : List String) : Nat :=
  ((refsUniverse idx).toFinset \ lst.toFinset).card

/-- Recursion-depth fuel sufficient for `add_missing_schemas` on `idx`,
proved adequate below. -/
def fuelBound (idx : List (String × String)) : Nat :=
  (refsUniverse idx).toFinset.card + 1

/-- Every name referenced from a body of the index is itself a key of the
index (the no-dangling-references condition). -/
def resolvable (idx : List (String × String)) : Prop :=
  ∀ p ∈ idx, ∀ m ∈ findRefs p.2, (dictLookup idx m).isSome = true

/-- Decidability of `resolvable`, so concrete instances evaluate. -/
instance (idx : List (String × String)) : Decidable (resolvable idx) := by
  unfold resolvable; infer_instance

/-- A two-schema index whose reference graph is a cycle: `A` references `B`
and `B` references `A` (bodies as serialized by `json.dumps`). -/
def cycIdx : List (String × String) :=
  [("A", "\x7b\"$ref\": \"#/components/schemas/B\"\x7d"),
   ("B", "\x7b\"$ref\": \"#/components/schemas/A\"\x7d")]

/-- An index whose only schema references a name absent from the index. -/
def danglingIdx : List (String × String) :=
  [("A", "\x7b\"$ref\": \"#/components/schemas/B\"\x7d")]

/-- A well-formed document in which two operations share the operation
identifier `"dup"`. -/
def exC3 : Json := Json.obj [
  ("openapi", Json.str "3.0.1"),
  ("paths", Json.obj [
    ("/a", Json.obj [("get", Json.obj [
      ("operationId", Json.str "dup"), ("responses", Json.obj [])])]),
    ("/b", Json.obj [("post", Json.obj [
      ("operationId", Json.str "dup"), ("responses", Json.obj [])])])]),
  ("components", Json.obj [("schemas", Json.obj [])])]

/-- The second `"dup"` operation of `exC3`, which survives the dict build. -/
def opDupSecond : Operation := ⟨some "dup", "post", "/b", none, "No tag", []⟩

/-- A well-formed document whose two operations both lack `operationId`. -/
def exC4 : Json := Json.obj [
  ("openapi", Json.str "3.0.1"),
  ("paths", Json.obj [
    ("/a", Json.obj [("get", Json.obj [("responses", Json.obj [])])]),
    ("/b", Json.obj [("post", Json.obj [("responses", Json.obj [])])])]),
  ("components", Json.obj [("schemas", Json.obj [])])]

/-- The second identifier-less operation of `exC4`. -/
def opNoIdSecond : Operation := ⟨none, "post", "/b", none, "No tag", []⟩

/-- A JSON document with the `openapi` marker but no `components` key. -/
def exC10a : Json := Json.obj [
  ("openapi", Json.str "3.0.1"),
  ("paths", Json.obj [])]

/-- A JSON document with the `openapi` marker and a `components` object
that lacks the `schemas` key. -/
def exC10b : Json := Json.obj [
  ("openapi", Json.str "3.0.1"),
  ("components", Json.obj [("securitySchemes", Json.obj [])]),
  ("paths", Json.obj [])]

/-- Lookup of the operation object stored under `(path, verb)` in a rebuilt
paths association list (observation helper). -/
def pvLookup (paths : List (String × Json)) (p v : String) : Option Json :=
  (dictLookup paths p).bind (fun item => docLookup item v)

/-- Whether some identifier in the selection resolves in the catalog to an
operation located at `(path, verb)`. -/
def selHits (ops : List (Option String × Operation)) (sel : List String)
    (p v : String) : Bool :=
  sel.any (fun id =>
    match dictLookup ops (some id) with
    | some op => op.path == p && op.verb == v
    | none => false)

/-- A document with several non-`paths`, non-`components` top-level fields
and a non-`schemas` entry under `components`, for the frame-condition
witness. -/
def exC8 : Json := Json.obj [
  ("openapi", Json.str "3.0.1"),
  ("info", Json.obj [("title", Json.str "Demo")]),
  ("servers", Json.arr [Json.str "https://api.example.test"]),
  ("paths", Json.obj [("/a", Json.obj [("get", Json.obj [
    ("operationId", Json.str "getA"), ("responses", Json.obj [])])])]),
  ("components", Json.obj [
    ("schemas", Json.obj [("Pet", Json.obj [("type", Json.str "string")])]),
    ("securitySchemes", Json.obj [("basic", Json.obj [("type", Json.str "http")])])])]

/-- The reduction of `exC8` under the empty selection. -/
def exC8red : Json := (reduced_spec_of exC8 [] []).toOption.getD Json.null

/-- A two-operation catalog for the monotonicity witness. -/
def wOpA : Operation := ⟨some "a", "get", "/x", none, "No tag", ["Pet"]⟩

/-- Second operation of the monotonicity witness catalog. -/
def wOpB : Operation := ⟨some "b", "post", "/y", none, "No tag", ["Tag"]⟩

/-- The witness catalog. -/
def wOps : List (Option String × Operation) := [(some "a", wOpA), (some "b", wOpB)]

/-- The `get /x` operation object of `wSpec`. -/
def wGetOp : Json := Json.obj [("operationId", Json.str "a"), ("responses", Json.obj [])]

/-- A document with two operations and two schemas for the monotonicity
witness. -/
def wSpec : Json := Json.obj [
  ("openapi", Json.str "3.0.1"),
  ("paths", Json.obj [
    ("/x", Json.obj [("get", wGetOp)]),
    ("/y", Json.obj [("post", Json.obj [
      ("operationId", Json.str "b"), ("responses", Json.obj [])])])]),
  ("components", Json.obj [("schemas", Json.obj [
    ("Pet", Json.obj [("type", Json.str "string")]),
    ("Tag", Json.obj [("type", Json.str "string")])])])]

/-- `wSpec` reduced under the selection `{a}`. -/
def wRedS : Json := (reduced_spec_of wSpec wOps ["a"]).toOption.getD Json.null

/-- `wSpec` reduced under the selection `{a, b}`. -/
def wRedS2 : Json := (reduced_spec_of wSpec wOps ["a", "b"]).toOption.getD Json.null

/-- A document with one operation (`getPets`, referencing `Pet`, which
references `Tag`) and an additional schema `Orphan` referenced by no
operation. -/
def exC1 : Json := Json.obj [
  ("openapi", Json.str "3.0.1"),
  ("info", Json.obj [("title", Json.str "t")]),
  ("paths", Json.obj [
    ("/pets", Json.obj [
      ("get", Json.obj [
        ("operationId", Json.str "getPets"),
        ("responses", Json.obj [
          ("200", Json.obj [("content", Json.obj [
            ("application/json", Json.obj [("schema", Json.obj [
              ("$ref", Json.str "#/components/schemas/Pet")])])])])])])])]),
  ("components", Json.obj [("schemas", Json.obj [
    ("Pet", Json.obj [("type", Json.str "object"), ("tagref", Json.obj [
      ("$ref", Json.str "#/components/schemas/Tag")])]),
    ("Tag", Json.obj [("type", Json.str "string")]),
    ("Orphan", Json.obj [("type", Json.str "string")])])])]

/-- The serialized schema index of `exC1`. -/
def exC1idx : List (String × String) :=
  ((load_api_spec exC1 9).toOption.map (fun t => t.2.1)).getD []

/-- The operations extracted from `exC1`. -/
def exC1ops : List Operation :=
  [⟨some "getPets", "get", "/pets", none, "No tag", ["Pet", "Tag"]⟩]

/-- The catalog of `exC1`. -/
def exC1cat : List (Option String × Operation) :=
  pyDict (exC1ops.map (fun op => (op.op_id, op)))

/-- The fields of `exC1`'s `paths` object. -/
def exC1P : List (String × Json) :=
  [("/pets", Json.obj [
    ("get", Json.obj [
      ("operationId", Json.str "getPets"),
      ("responses", Json.obj [
        ("200", Json.obj [("content", Json.obj [
          ("application/json", Json.obj [("schema", Json.obj [
            ("$ref", Json.str "#/components/schemas/Pet")])])])])])])])]

/-- `exC1` reduced with every operation identifier selected. -/
def exC1red : Json := (reduced_spec_of exC1 exC1cat ["getPets"]).toOption.getD Json.null

section DictLemmas

variable {α β : Type} [BEq α] [LawfulBEq α]

theorem dictLookup_nil (k : α) : dictLookup ([] : List (α × β)) k = none := rfl

theorem dictLookup_cons (p : α × β) (l : List (α × β)) (k : α) :
    dictLookup (p :: l) k = if p.1 == k then some p.2 else dictLookup l k := by
  by_cases h : p.1 == k <;> simp [dictLookup, List.find?, h]

theorem dictLookup_append (l₁ l₂ : List (α × β)) (k : α) :
    dictLookup (l₁ ++ l₂) k =
      match dictLookup l₁ k with
      | some v => some v
      | none => dictLookup l₂ k := by
  induction l₁ with
  | nil => simp [dictLookup_nil]
  | cons p l ih =>
    rw [List.cons_append, dictLookup_cons, dictLookup_cons]
    by_cases hp : p.1 == k <;> simp [hp, ih]

theorem dictLookup_eq_none_of_any_false (l : List (α × β)) (k : α)
    (hany : l.any (fun q => q.1 == k) = false) : dictLookup l k = none := by
  induction l with
  | nil => rfl
  | cons p l ih =>
    simp only [List.any_cons, Bool.or_eq_false_iff] at hany
    rw [dictLookup_cons, hany.1]
    simpa using ih hany.2

theorem dictLookup_mapset_self (l : List (α × β)) (k : α) (v : β)
    (hany : l.any (fun q => q.1 == k) = true) :
    dictLookup (l.map (fun q => if q.1 == k then (k, v) else q)) k = some v := by
  induction l with
  | nil => simp at hany
  | cons p l ih =>
    by_cases hp : p.1 == k
    · simp [dictLookup_cons, hp]
    · have hp' : (p.1 == k) = false := by simpa using hp
      have hany' : l.any (fun q => q.1 == k) = true := by simpa [hp'] using hany
      simp [dictLookup_cons, hp', ih hany']

theorem dictLookup_mapset_ne (l : List (α × β)) (k k' : α) (v : β) (h : ¬ k' = k) :
    dictLookup (l.map (fun q => if q.1 == k then (k, v) else q)) k' = dictLookup l k' := by
  induction l with
  | nil => rfl
  | cons p l ih =>
    by_cases hp : p.1 == k
    · have hpk : p.1 = k := by simpa using hp
      have h1 : (k == k') = false := by
        simp only [beq_eq_false_iff_ne, ne_eq]
        exact fun hk => h hk.symm
      have h2 : (p.1 == k') = false := by
        rw [hpk]
        exact h1
      simp [dictLookup_cons, hp, h1, h2, ih]
    · have hp' : (p.1 == k) = false := by simpa using hp
      simp [dictLookup_cons, hp', ih]

theorem dictLookup_pySetKey_self (l : List (α × β)) (k : α) (v : β) :
    dictLookup (pySetKey l k v) k = some v := by
  by_cases hany : l.any (fun q => q.1 == k)
  · rw [pySetKey, if_pos hany]
    exact dictLookup_mapset_self l k v hany
  · have hany' : l.any (fun q => q.1 == k) = false := by
      simpa only [Bool.not_eq_true] using hany
    rw [pySetKey, if_neg (by rw [hany']; exact Bool.false_ne_true)]
    rw [dictLookup_append, dictLookup_eq_none_of_any_false l k hany']
    simp [dictLookup_cons]

theorem dictLookup_pySetKey_ne (l : List (α × β)) (k k' : α) (v : β) (h : k' ≠ k) :
    dictLookup (pySetKey l k v) k' = dictLookup l k' := by
  by_cases hany : l.any (fun q => q.1 == k)
  · rw [pySetKey, if_pos hany]
    exact dictLookup_mapset_ne l k k' v h
  · have hany' : l.any (fun q => q.1 == k) = false := by
      simpa only [Bool.not_eq_true] using hany
    rw [pySetKey, if_neg (by rw [hany']; exact Bool.false_ne_true)]
    rw [dictLookup_append]
    have hk : (k == k') = false := by
      simp only [beq_eq_false_iff_ne, ne_eq]
      exact fun hk => h hk.symm
    cases hl : dictLookup l k' <;> simp [hl, dictLookup_cons, hk, dictLookup_nil]

theorem lastLookup_foldl (l : List (α × β)) (k : α) (a : Option β) :
    l.foldl (fun acc kv => if kv.1 == k then some kv.2 else acc) a =
      match lastLookup l k with
      | some v => some v
      | none => a := by
  induction l generalizing a with
  | nil => simp [lastLookup]
  | cons kv l ih =>
    rw [List.foldl_cons]
    rw [ih]
    have hr : lastLookup (kv :: l) k =
        match lastLookup l k with
        | some v => some v
        | none => if kv.1 == k then some kv.2 else none := by
      rw [lastLookup, List.foldl_cons]
      exact ih (if kv.1 == k then some kv.2 else none)
    rw [hr]
    cases lastLookup l k <;> by_cases hp : kv.1 == k <;> simp [hp]

theorem dictLookup_pyDict (l : List (α × β)) (k : α) :
    dictLookup (pyDict l) k = lastLookup l k := by
  have G : ∀ (l : List (α × β)) (acc : List (α × β)),
      dictLookup (l.foldl (fun a kv => pySetKey a kv.1 kv.2) acc) k =
        match lastLookup l k with
        | some v => some v
        | none => dictLookup acc k := by
    intro l
    induction l with
    | nil => intro acc; simp [lastLookup]
    | cons kv l ih =>
      intro acc
      rw [List.foldl_cons, ih]
      have hr : lastLookup (kv :: l) k =
          match lastLookup l k with
          | some v => some v
          | none => if kv.1 == k then some kv.2 else none := by
        rw [lastLookup, List.foldl_cons]
        exact lastLookup_foldl l k (if kv.1 == k then some kv.2 else none)
      rw [hr]
      cases hl : lastLookup l k
      · by_cases hp : kv.1 == k
        · have hpk : kv.1 = k := by simpa using hp
          simp only [hp, if_true]
          rw [← hpk, dictLookup_pySetKey_self]
        · have hp' : (kv.1 == k) = false := by simpa using hp
          simp only [hp', Bool.false_eq_true, if_false]
          rw [dictLookup_pySetKey_ne]
          intro hk
          rw [hk] at hp
          simp at hp
      · simp
  rw [pyDict, G l []]
  cases lastLookup l k <;> simp [dictLookup_nil]

theorem mem_pySet (x : String) (l : List String) : x ∈ pySet l ↔ x ∈ l := by
  have G : ∀ (l acc : List String),
      x ∈ l.foldl (fun acc y => if acc.contains y then acc else acc ++ [y]) acc ↔
        x ∈ acc ∨ x ∈ l := by
    intro l
    induction l with
    | nil => intro acc; simp
    | cons y l ih =>
      intro acc
      rw [List.foldl_cons, ih]
      by_cases hc : acc.contains y
      · have hy : y ∈ acc := by simpa using hc
        simp only [hc, if_true, List.mem_cons]
        constructor
        · rintro (h | h)
          · exact Or.inl h
          · exact Or.inr (Or.inr h)
        · rintro (h | h | h)
          · exact Or.inl h
          · exact Or.inl (h ▸ hy)
          · exact Or.inr h
      · have hc' : acc.contains y = false := by simpa using hc
        simp only [hc', Bool.false_eq_true, if_false, List.mem_append, List.mem_singleton,
          List.mem_cons]
        tauto
  rw [pySet, G l []]
  simp

theorem pySet_nodup (l : List String) : (pySet l).Nodup := by
  have G : ∀ (l acc : List String), acc.Nodup →
      (l.foldl (fun acc y => if acc.contains y then acc else acc ++ [y]) acc).Nodup := by
    intro l
    induction l with
    | nil => intro acc h; simpa using h
    | cons y l ih =>
      intro acc h
      rw [List.foldl_cons]
      by_cases hc : acc.contains y
      · rw [if_pos hc]
        exact ih acc h
      · have hc' : acc.contains y = false := by simpa using hc
        have hy : y ∉ acc := by simpa using hc
        rw [if_neg (by rw [hc']; exact Bool.false_ne_true)]
        refine ih (acc ++ [y]) ?_
        simp [List.nodup_append, h, hy]
  exact G l [] List.nodup_nil

end DictLemmas

theorem okBind {ε α β : Type} (a : α) (f : α → Except ε β) :
    ((Except.ok a : Except ε α) >>= f) = f a := rfl

theorem errBind {ε α β : Type} (e : ε) (f : α → Except ε β) :
    ((Except.error e : Except ε α) >>= f) = .error e := rfl

theorem ams_zero (idx : List (String × String)) (s : String) (lst : List String) :
    add_missing_schemas idx 0 s lst = .error .fuelOut := rfl

theorem ams_succ (idx : List (String × String)) (fuel : Nat) (s : String)
    (lst : List String) :
    add_missing_schemas idx (fuel + 1) s lst =
      match dictLookup idx s with
      | none => .error (.keyError s)
      | some body =>
        let nm := (findRefs body).filter (fun m => !(lst.contains m))
        nm.foldlM (fun acc m => add_missing_schemas idx fuel m acc) (lst ++ nm) := rfl

theorem ams_succ_none (idx : List (String × String)) (fuel : Nat) (s : String)
    (lst : List String) (hb : dictLookup idx s = none) :
    add_missing_schemas idx (fuel + 1) s lst = .error (.keyError s) := by
  rw [ams_succ, hb]

theorem ams_succ_some (idx : List (String × String)) (fuel : Nat) (s : String)
    (lst : List String) (body : String) (hb : dictLookup idx s = some body) :
    add_missing_schemas idx (fuel + 1) s lst =
      ((findRefs body).filter (fun m => !(lst.contains m))).foldlM
        (fun acc m => add_missing_schemas idx fuel m acc)
        (lst ++ (findRefs body).filter (fun m => !(lst.contains m))) := by
  rw [ams_succ, hb]

theorem dictLookup_some_mem {idx : List (String × String)} {s body : String}
    (h : dictLookup idx s = some body) : (s, body) ∈ idx := by
  simp only [dictLookup] at h
  cases hf : idx.find? (fun p => p.1 == s) with
  | none => rw [hf] at h; simp at h
  | some p =>
    rw [hf] at h
    simp at h
    have hp := List.find?_some hf
    have hmem := List.mem_of_find?_eq_some hf
    have h1 : p.1 = s := by simpa using hp
    have h2 : p = (s, body) := by
      cases p
      simp_all
    exact h2 ▸ hmem

theorem mem_refsUniverse {idx : List (String × String)} {s body m : String}
    (h : dictLookup idx s = some body) (hm : m ∈ findRefs body) :
    m ∈ refsUniverse idx := by
  rw [refsUniverse, List.mem_join]
  exact ⟨findRefs body, List.mem_map_of_mem _ (dictLookup_some_mem h), hm⟩

theorem resolvable_ref {idx : List (String × String)} (hres : resolvable idx)
    {s body m : String} (h : dictLookup idx s = some body) (hm : m ∈ findRefs body) :
    (dictLookup idx m).isSome = true :=
  hres (s, body) (dictLookup_some_mem h) m hm

theorem missCount_le (idx : List (String × String)) (lst : List String) :
    missCount idx lst ≤ (refsUniverse idx).toFinset.card :=
  Finset.card_le_card (Finset.sdiff_subset)

theorem missCount_mono (idx : List (String × String)) {lst lst' : List String}
    (h : ∀ x ∈ lst, x ∈ lst') : missCount idx lst' ≤ missCount idx lst := by
  apply Finset.card_le_card
  apply Finset.sdiff_subset_sdiff (Finset.Subset.refl _)
  intro x hx
  rw [List.mem_toFinset] at hx ⊢
  exact h x hx

theorem missCount_strict (idx : List (String × String)) {lst lst' : List String}
    {x : String} (hxu : x ∈ refsUniverse idx) (hxl : x ∉ lst) (hxl' : x ∈ lst')
    (h : ∀ y ∈ lst, y ∈ lst') : missCount idx lst' < missCount idx lst := by
  apply Finset.card_lt_card
  rw [Finset.ssubset_iff_of_subset]
  · refine ⟨x, ?_, ?_⟩
    · rw [Finset.mem_sdiff, List.mem_toFinset, List.mem_toFinset]
      exact ⟨hxu, hxl⟩
    · rw [Finset.mem_sdiff, List.mem_toFinset, List.mem_toFinset]
      intro hc
      exact hc.2 hxl'
  · apply Finset.sdiff_subset_sdiff (Finset.Subset.refl _)
    intro y hy
    rw [List.mem_toFinset] at hy ⊢
    exact h y hy

theorem ams_ext (idx : List (String × String)) :
    ∀ (fuel : Nat) (s : String) (lst out : List String),
      add_missing_schemas idx fuel s lst = .ok out → ∃ t, out = lst ++ t := by
  intro fuel
  induction fuel with
  | zero => intro s lst out h; rw [ams_zero] at h; exact absurd h (by simp)
  | succ fuel ih =>
    have foldExt : ∀ (ms : List String) (cur out : List String),
        ms.foldlM (fun acc m => add_missing_schemas idx fuel m acc) cur = .ok out →
          ∃ t, out = cur ++ t := by
      intro ms
      induction ms with
      | nil =>
        intro cur out h
        rw [List.foldlM_nil] at h
        have h' : (Except.ok cur : Except PyErr (List String)) = .ok out := h
        exact ⟨[], by simpa using h'.symm⟩
      | cons m ms ihm =>
        intro cur out h
        rw [List.foldlM_cons] at h
        cases hstep : add_missing_schemas idx fuel m cur with
        | error e => rw [hstep, errBind] at h; exact absurd h (by simp)
        | ok mid =>
          rw [hstep, okBind] at h
          obtain ⟨t1, ht1⟩ := ih m cur mid hstep
          obtain ⟨t2, ht2⟩ := ihm mid out h
          exact ⟨t1 ++ t2, by rw [ht2, ht1, List.append_assoc]⟩
    intro s lst out h
    cases hl : dictLookup idx s with
    | none =>
      rw [ams_succ_none idx fuel s lst hl] at h
      exact absurd h (by simp)
    | some body =>
      rw [ams_succ_some idx fuel s lst body hl] at h
      obtain ⟨t, ht⟩ := foldExt _ _ _ h
      exact ⟨(findRefs body).filter (fun m => !(lst.contains m)) ++ t, by
        rw [ht, List.append_assoc]⟩

theorem amsFold_ext (idx : List (String × String)) (fuel : Nat) :
    ∀ (ms : List String) (cur out : List String),
      ms.foldlM (fun acc m => add_missing_schemas idx fuel m acc) cur = .ok out →
        ∃ t, out = cur ++ t := by
  intro ms
  induction ms with
  | nil =>
    intro cur out h
    rw [List.foldlM_nil] at h
    have h' : (Except.ok cur : Except PyErr (List String)) = .ok out := h
    exact ⟨[], by simpa using h'.symm⟩
  | cons m ms ihm =>
    intro cur out h
    rw [List.foldlM_cons] at h
    cases hstep : add_missing_schemas idx fuel m cur with
    | error e => rw [hstep, errBind] at h; exact absurd h (by simp)
    | ok mid =>
      rw [hstep, okBind] at h
      obtain ⟨t1, ht1⟩ := ams_ext idx fuel m cur mid hstep
      obtain ⟨t2, ht2⟩ := ihm mid out h
      exact ⟨t1 ++ t2, by rw [ht2, ht1, List.append_assoc]⟩

theorem amsFold_success (idx : List (String × String)) (fuel : Nat)
    (ih : ∀ (s : String) (lst : List String), (dictLookup idx s).isSome = true →
      missCount idx lst < fuel → ∃ out, add_missing_schemas idx fuel s lst = .ok out) :
    ∀ (ms : List String) (cur : List String),
      (∀ m ∈ ms, (dictLookup idx m).isSome = true) →
      (ms = [] ∨ missCount idx cur < fuel) →
      ∃ out, ms.foldlM (fun acc m => add_missing_schemas idx fuel m acc) cur = .ok out := by
  intro ms
  induction ms with
  | nil => intro cur _ _; exact ⟨cur, by rw [List.foldlM_nil]; rfl⟩
  | cons m ms ihm =>
    intro cur hmem hbound
    have hcur : missCount idx cur < fuel := by
      cases hbound with
      | inl h => exact absurd h (by simp)
      | inr h => exact h
    obtain ⟨mid, hmid⟩ := ih m cur (hmem m (by simp)) hcur
    obtain ⟨t, ht⟩ := ams_ext idx fuel m cur mid hmid
    have hmid_bound : missCount idx mid < fuel :=
      lt_of_le_of_lt (missCount_mono idx (by intro y hy; rw [ht]; exact List.mem_append_left _ hy)) hcur
    obtain ⟨out, hout⟩ := ihm mid (fun x hx => hmem x (List.mem_cons_of_mem _ hx))
      (Or.inr hmid_bound)
    exact ⟨out, by rw [List.foldlM_cons, hmid, okBind, hout]⟩

theorem ams_success (idx : List (String × String)) (hres : resolvable idx) :
    ∀ (fuel : Nat) (s : String) (lst : List String),
      (dictLookup idx s).isSome = true → missCount idx lst < fuel →
        ∃ out, add_missing_schemas idx fuel s lst = .ok out := by
  intro fuel
  induction fuel with
  | zero => intro s lst _ h; exact absurd h (Nat.not_lt_zero _)
  | succ fuel ih =>
    intro s lst hs hcount
    obtain ⟨body, hb⟩ := Option.isSome_iff_exists.mp hs
    by_cases hnm : (findRefs body).filter (fun m => !(lst.contains m)) = []
    · refine ⟨lst ++ (findRefs body).filter (fun m => !(lst.contains m)), ?_⟩
      rw [ams_succ_some idx fuel s lst body hb, hnm, List.foldlM_nil]
      rfl
    · obtain ⟨m0, ms0, hms0⟩ := List.exists_cons_of_ne_nil hnm
      have hm0 : m0 ∈ (findRefs body).filter (fun m => !(lst.contains m)) := by
        rw [hms0]; simp
      have hm0u : m0 ∈ refsUniverse idx :=
        mem_refsUniverse hb (List.mem_of_mem_filter hm0)
      have hm0l : m0 ∉ lst := by
        have := List.of_mem_filter hm0
        simpa using this
      have hbound : missCount idx (lst ++ (findRefs body).filter (fun m => !(lst.contains m))) < fuel := by
        have hlt : missCount idx (lst ++ (findRefs body).filter (fun m => !(lst.contains m))) <
            missCount idx lst := by
          apply missCount_strict idx hm0u hm0l
          · exact List.mem_append_right _ hm0
          · intro y hy; exact List.mem_append_left _ hy
        omega
      have hmem : ∀ m ∈ (findRefs body).filter (fun m => !(lst.contains m)),
          (dictLookup idx m).isSome = true := by
        intro m hm
        exact resolvable_ref hres hb (List.mem_of_mem_filter hm)
      obtain ⟨out, hout⟩ := amsFold_success idx fuel ih
        ((findRefs body).filter (fun m => !(lst.contains m)))
        (lst ++ (findRefs body).filter (fun m => !(lst.contains m)))
        hmem (Or.inr hbound)
      exact ⟨out, by rw [ams_succ_some idx fuel s lst body hb]; exact hout⟩

theorem ams_no_fuelOut (idx : List (String × String)) :
    ∀ (fuel : Nat) (s : String) (lst : List String), missCount idx lst < fuel →
      add_missing_schemas idx fuel s lst ≠ .error .fuelOut := by
  intro fuel
  induction fuel with
  | zero => intro s lst h; exact absurd h (Nat.not_lt_zero _)
  | succ fuel ih =>
    intro s lst hcount
    cases hb : dictLookup idx s with
    | none =>
      rw [ams_succ_none idx fuel s lst hb]
      simp
    | some body =>
      rw [ams_succ_some idx fuel s lst body hb]
      have foldNF : ∀ (ms : List String) (cur : List String),
          (ms = [] ∨ missCount idx cur < fuel) →
          ms.foldlM (fun acc m => add_missing_schemas idx fuel m acc) cur ≠
            .error .fuelOut := by
        intro ms
        induction ms with
        | nil => intro cur _; rw [List.foldlM_nil]; simp [pure, Except.pure]
        | cons m ms ihm =>
          intro cur hbound
          have hcur : missCount idx cur < fuel := by
            cases hbound with
            | inl h => exact absurd h (by simp)
            | inr h => exact h
          rw [List.foldlM_cons]
          cases hstep : add_missing_schemas idx fuel m cur with
          | error e =>
            rw [errBind]
            intro hc
            exact ih m cur hcur (hstep.trans hc)
          | ok mid =>
            rw [okBind]
            obtain ⟨t, ht⟩ := ams_ext idx fuel m cur mid hstep
            have hmid_bound : missCount idx mid < fuel :=
              lt_of_le_of_lt (missCount_mono idx
                (by intro y hy; rw [ht]; exact List.mem_append_left _ hy)) hcur
            exact ihm mid (Or.inr hmid_bound)
      by_cases hnm : (findRefs body).filter (fun m => !(lst.contains m)) = []
      · exact foldNF _ _ (Or.inl hnm)
      · obtain ⟨m0, ms0, hms0⟩ := List.exists_cons_of_ne_nil hnm
        have hm0 : m0 ∈ (findRefs body).filter (fun m => !(lst.contains m)) := by
          rw [hms0]; simp
        have hbound : missCount idx (lst ++ (findRefs body).filter
            (fun m => !(lst.contains m))) < fuel := by
          have hlt : missCount idx (lst ++ (findRefs body).filter
              (fun m => !(lst.contains m))) < missCount idx lst := by
            apply missCount_strict idx (mem_refsUniverse hb (List.mem_of_mem_filter hm0))
              (by have := List.of_mem_filter hm0; simpa using this)
            · exact List.mem_append_right _ hm0
            · intro y hy; exact List.mem_append_left _ hy
          omega
        exact foldNF _ _ (Or.inr hbound)

theorem closure_no_fuelOut (idx : List (String × String)) (seeds : List String) :
    closure_of idx (fuelBound idx) seeds ≠ .error .fuelOut := by
  rw [closure_of]
  have foldNF : ∀ (ms : List String) (cur : List String),
      ms.foldlM (fun acc m => add_missing_schemas idx (fuelBound idx) m acc) cur ≠
        .error .fuelOut := by
    intro ms
    induction ms with
    | nil => intro cur; rw [List.foldlM_nil]; simp [pure, Except.pure]
    | cons m ms ihm =>
      intro cur
      rw [List.foldlM_cons]
      cases hstep : add_missing_schemas idx (fuelBound idx) m cur with
      | error e =>
        rw [errBind]
        intro hc
        exact ams_no_fuelOut idx (fuelBound idx) m cur
          (by rw [fuelBound]; exact Nat.lt_succ_of_le (missCount_le idx cur))
          (hstep.trans hc)
      | ok mid =>
        rw [okBind]
        exact ihm mid
  exact foldNF (pySet seeds) seeds

theorem closure_success (idx : List (String × String)) (seeds : List String)
    (hres : resolvable idx) (hseeds : ∀ s ∈ seeds, (dictLookup idx s).isSome = true) :
    ∃ out, closure_of idx (fuelBound idx) seeds = .ok out := by
  rw [closure_of]
  apply amsFold_success idx (fuelBound idx)
  · intro s lst hs _
    apply ams_success idx hres (fuelBound idx) s lst hs
    rw [fuelBound]
    exact Nat.lt_succ_of_le (missCount_le idx lst)
  · intro m hm
    exact hseeds m ((mem_pySet m seeds).mp hm)
  · right
    rw [fuelBound]
    exact Nat.lt_succ_of_le (missCount_le idx seeds)


theorem scanRefs_tokens :
    ∀ (fuel : Nat) (l : List Char) (t : String), t ∈ scanRefs fuel l →
      t.data ≠ [] ∧ t.data.all isWordChar = true := by
  intro fuel
  induction fuel with
  | zero => intro l t h; simp [scanRefs] at h
  | succ fuel ih =>
    intro l t h
    cases l with
    | nil => simp [scanRefs] at h
    | cons c cs =>
      by_cases hp : refMarker.isPrefixOf (c :: cs)
      · by_cases hw : (((c :: cs).drop refMarker.length).takeWhile isWordChar).isEmpty
        · rw [scanRefs, if_pos hp] at h
          simp only [hw, if_true] at h
          exact ih cs t h
        · rw [scanRefs, if_pos hp] at h
          simp only [hw, Bool.false_eq_true, if_false, List.mem_cons] at h
          cases h with
          | inl he =>
            subst he
            constructor
            · intro hnil
              apply hw
              have : (((c :: cs).drop refMarker.length).takeWhile isWordChar) = [] := hnil
              rw [this]
              rfl
            · rw [List.all_eq_true]
              intro x hx
              exact List.mem_takeWhile_imp hx
          | inr hr => exact ih _ t hr
      · rw [scanRefs, if_neg hp] at h
        exact ih cs t h

/-- C2 (amended): the closure computation does not treat a schema name that
is missing from the index as a leaf.  Expanding any name absent from the
index — seed or discovered — evaluates `all_schemas[schema]` and raises
`KeyError`, aborting the computation instead of completing. -/
theorem C2_missing_name_raises (idx : List (String × String)) (fuel : Nat)
    (s : String) (lst : List String) (h : dictLookup idx s = none) :
    add_missing_schemas idx (fuel + 1) s lst = .error (.keyError s) :=
  ams_succ_none idx fuel s lst h

/-- C2 witness: a concrete missing seed raising `KeyError`. -/
theorem C2_missing_name_raises_witness :
    dictLookup ([] : List (String × String)) "X" = none ∧
      add_missing_schemas [] 1 "X" [] = .error (.keyError "X") :=
  ⟨rfl, C2_missing_name_raises [] 0 "X" [] rfl⟩

/-- C2 counterexample: the claim says a name absent from the index is kept
as a leaf and the computation completes without error; but when schema
`Pet`'s body references the absent name `Tag`, the recursive expansion of
`Tag` raises `KeyError` instead. -/
theorem C2_counterexample :
    add_missing_schemas [("Pet", "\x7b\"$ref\": \"#/components/schemas/Tag\"\x7d")]
      3 "Pet" ["Pet"] = .error (.keyError "Tag") := rfl

/-- C3 (amended): catalog construction does not reject duplicate operation
identifiers.  The dict build of line 87 silently overwrites: looking up any
identifier in the built catalog returns the LAST operation carrying it. -/
theorem C3_duplicate_id_overwrites (l : List (Option String × Operation))
    (k : Option String) :
    dictLookup (pyDict l) k = lastLookup l k :=
  dictLookup_pyDict l k

/-- C3 counterexample: loading a document whose two operations share the
identifier `"dup"` succeeds — no `DuplicateOperationError` exists in the
program — and the catalog retains only the second operation. -/
theorem C3_counterexample :
    (load_api_spec exC3 3).map (fun t => t.2.2.1) = .ok [(some "dup", opDupSecond)] := rfl

/-- C4 (amended): catalog construction does not reject operations lacking
an `operationId`.  Extraction propagates the absent identifier as `none`,
the dict build keys such operations under the null identifier, and several
identifier-less operations silently collapse onto one entry. -/
theorem C4_missing_id_tolerated :
    (load_api_spec exC4 3).map (fun t => t.2.2.1) = .ok [(none, opNoIdSecond)] := rfl

/-- C4 counterexample: the claim says loading a document containing an
operation without `operationId` fails; it succeeds. -/
theorem C4_counterexample : (load_api_spec exC4 3).isOk = true := rfl

/-- C5 (amended): an operation object with no request body extracts to an
`Operation` with an empty schema set provided its `responses` field is
present (possibly an empty mapping); when the `responses` field is absent
altogether, extraction raises `KeyError` (see the counterexample). -/
theorem C5_empty_operation_ok (path verb : String) (idx : List (String × String))
    (fuel : Nat) :
    parse_path path (Json.obj [(verb, Json.obj [("responses", Json.obj [])])]) idx fuel =
      .ok [⟨none, verb, path, none, "No tag", []⟩] := rfl

/-- C5 counterexample: an operation object that declares neither a request
body nor any responses (both keys absent) makes extraction raise `KeyError`
at `op["responses"]` rather than succeed. -/
theorem C5_counterexample :
    parse_path "/a" (Json.obj [("get", Json.obj [])]) [] 1 =
      .error (.keyError "responses") := rfl

/-- C6 (amended): on every finite schema index — cyclic reference graphs
included — and every seed list, the closure computation terminates within
the visited-set fuel bound (it never exhausts the fuel); when every
referenced name and every seed resolves in the index it completes without
any error, and the deduplicated result handed to the `Operation` has no
duplicate names and the same members as the raw accumulation list. -/
theorem C6_closure_cycle_safety (idx : List (String × String)) (seeds : List String)
    (hres : resolvable idx)
    (hseeds : ∀ s ∈ seeds, (dictLookup idx s).isSome = true) :
    closure_of idx (fuelBound idx) seeds ≠ .error .fuelOut ∧
      ∃ out, closure_of idx (fuelBound idx) seeds = .ok out ∧ (pySet out).Nodup ∧
        ∀ x, x ∈ pySet out ↔ x ∈ out := by
  refine ⟨closure_no_fuelOut idx seeds, ?_⟩
  obtain ⟨out, hout⟩ := closure_success idx seeds hres hseeds
  exact ⟨out, hout, pySet_nodup out, fun x => mem_pySet x out⟩

/-- C6 witness: the two-schema cyclic index `A ↔ B` satisfies the
hypotheses, and its closure from seed `A` is computed safely. -/
theorem C6_closure_cycle_safety_witness :
    resolvable cycIdx ∧
      (closure_of cycIdx (fuelBound cycIdx) ["A"] ≠ .error .fuelOut ∧
        ∃ out, closure_of cycIdx (fuelBound cycIdx) ["A"] = .ok out ∧
          (pySet out).Nodup ∧ ∀ x, x ∈ pySet out ↔ x ∈ out) :=
  ⟨by decide, C6_closure_cycle_safety cycIdx ["A"] (by decide) (by decide)⟩

/-- C6 counterexample: the claim quantifies over every finite schema index,
but on an index with a dangling reference the closure computation does not
return a set at all — it raises `KeyError`. -/
theorem C6_counterexample :
    closure_of danglingIdx (fuelBound danglingIdx) ["A"] = .error (.keyError "B") := rfl

/-- C9: the direct-reference scan returns exactly the maximal ASCII
word-character tokens following the literal marker `#/components/schemas/`:
every returned token is a non-empty all-word-character string, and a
referenced name containing `.` is truncated at the dot (while a clean name
is returned whole). -/
theorem C9_direct_ref_scan :
    (∀ (s t : String), t ∈ findRefs s → t.data ≠ [] ∧ t.data.all isWordChar = true) ∧
      findRefs "\x7b\"$ref\": \"#/components/schemas/Product.Detail\"\x7d" =
        ["Product"] ∧
      findRefs "\x7b\"$ref\": \"#/components/schemas/ProductDetail\"\x7d" =
        ["ProductDetail"] :=
  ⟨fun s t h => scanRefs_tokens s.data.length s.data t h, rfl, rfl⟩

/-- C9 witness: the general token property applied at a concrete scan. -/
theorem C9_direct_ref_scan_witness :
    "Pet" ∈ findRefs "#/components/schemas/Pet" ∧
      ("Pet".data ≠ [] ∧ "Pet".data.all isWordChar = true) :=
  ⟨by decide, C9_direct_ref_scan.1 "#/components/schemas/Pet" "Pet" (by decide)⟩

/-- C10: a document that carries the `openapi` marker but no
`components.schemas` mapping makes loading fail with an uncaught `KeyError`
(`"components"` when `components` is absent, `"schemas"` when only the
inner key is missing) — not with the handled `st.stop` path and not by
proceeding with an empty index. -/
theorem C10_missing_schemas_keyerror :
    load_api_spec exC10a 1 = .error (.keyError "components") ∧
      load_api_spec exC10b 1 = .error (.keyError "schemas") :=
  ⟨rfl, rfl⟩

theorem asObj_ok {j : Json} {fs : List (String × Json)} (h : j.asObj = .ok fs) :
    j = Json.obj fs := by
  cases j <;> simp [Json.asObj] at h <;> simp [h]

theorem index_ok {j : Json} {k : String} {v : Json} (h : j.index k = .ok v) :
    ∃ fs, j = Json.obj fs ∧ dictLookup fs k = some v := by
  cases j <;> simp only [Json.index] at h
  case obj fs =>
    cases hl : dictLookup fs k with
    | none => rw [hl] at h; cases h
    | some w =>
      rw [hl] at h
      cases h
      exact ⟨fs, rfl, hl⟩
  all_goals cases h

theorem genDictLookup_mem {κ β : Type} [BEq κ] [LawfulBEq κ] {l : List (κ × β)}
    {k : κ} {v : β} (h : dictLookup l k = some v) : (k, v) ∈ l := by
  simp only [dictLookup] at h
  cases hf : l.find? (fun p => p.1 == k) with
  | none => rw [hf] at h; simp at h
  | some p =>
    rw [hf] at h
    simp at h
    have hp := List.find?_some hf
    have hmem := List.mem_of_find?_eq_some hf
    have h1 : p.1 = k := by simpa using hp
    have h2 : p = (k, v) := by
      cases p
      simp_all
    exact h2 ▸ hmem

theorem dictLookup_isSome_of_mem_keys {κ β : Type} [BEq κ] [LawfulBEq κ]
    {l : List (κ × β)} {k : κ} (h : k ∈ l.map Prod.fst) :
    ∃ v, dictLookup l k = some v := by
  induction l with
  | nil => simp at h
  | cons p rest ih =>
    rw [dictLookup_cons]
    by_cases hp : p.1 == k
    · exact ⟨p.2, by rw [if_pos hp]⟩
    · have hp' : (p.1 == k) = false := by simpa using hp
      rw [if_neg (by rw [hp']; exact Bool.false_ne_true)]
      apply ih
      rcases List.mem_map.mp h with ⟨q, hq, hqk⟩
      rcases List.mem_cons.mp hq with h1 | h1
      · exfalso
        apply hp
        rw [h1] at hqk
        simp [hqk]
      · exact List.mem_map.mpr ⟨q, h1, hqk⟩

theorem lastLookup_mem {κ β : Type} [BEq κ] [LawfulBEq κ] {l : List (κ × β)}
    {k : κ} {v : β} (h : lastLookup l k = some v) : (k, v) ∈ l := by
  induction l with
  | nil => simp [lastLookup] at h
  | cons p rest ih =>
    have hr : lastLookup (p :: rest) k =
        match lastLookup rest k with
        | some w => some w
        | none => if p.1 == k then some p.2 else none := by
      rw [lastLookup, List.foldl_cons]
      exact lastLookup_foldl rest k (if p.1 == k then some p.2 else none)
    rw [hr] at h
    cases hl : lastLookup rest k with
    | some w =>
      rw [hl] at h
      simp at h
      subst h
      exact List.mem_cons_of_mem _ (ih hl)
    | none =>
      rw [hl] at h
      by_cases hp : p.1 == k
      · rw [if_pos hp] at h
        have hpk : p.1 = k := by simpa using hp
        have hv : p.2 = v := by simpa using h
        have hpkv : p = (k, v) := by
          cases p
          simp_all
        rw [← hpkv]
        exact List.mem_cons_self _ _
      · rw [if_neg hp] at h
        cases h

theorem lastLookup_of_nodup {κ β : Type} [BEq κ] [LawfulBEq κ] {l : List (κ × β)}
    (hn : (l.map Prod.fst).Nodup) {kv : κ × β} (h : kv ∈ l) :
    lastLookup l kv.1 = some kv.2 := by
  induction l with
  | nil => simp at h
  | cons p rest ih =>
    have hr : lastLookup (p :: rest) kv.1 =
        match lastLookup rest kv.1 with
        | some w => some w
        | none => if p.1 == kv.1 then some p.2 else none := by
      rw [lastLookup, List.foldl_cons]
      exact lastLookup_foldl rest kv.1 (if p.1 == kv.1 then some p.2 else none)
    rw [hr]
    rw [List.map_cons, List.nodup_cons] at hn
    rcases List.mem_cons.mp h with h1 | h1
    · have hnone : lastLookup rest kv.1 = none := by
        cases hlr : lastLookup rest kv.1 with
        | none => rfl
        | some w =>
          exfalso
          apply hn.1
          rw [← h1]
          exact List.mem_map.mpr ⟨(kv.1, w), lastLookup_mem hlr, rfl⟩
      rw [hnone]
      subst h1
      simp
    · rw [ih hn.2 h1]

theorem reduced_spec_shape {spec : Json} {ops : List (Option String × Operation)}
    {sel : List String} {red : Json} (h : reduced_spec_of spec ops sel = .ok red) :
    ∃ ss specFs compsFs pathsF schemaPairs,
      selected_schemas_of ops sel = .ok ss ∧
      spec = Json.obj specFs ∧
      dictLookup specFs "components" = some (Json.obj compsFs) ∧
      buildPaths spec ops sel = .ok pathsF ∧
      schemaFold spec ss = .ok schemaPairs ∧
      red = Json.obj (pySetKey (pySetKey specFs "paths" (Json.obj pathsF)) "components"
        (Json.obj (pySetKey compsFs "schemas" (Json.obj schemaPairs)))) := by
  unfold reduced_spec_of at h
  cases h1 : selected_schemas_of ops sel with
  | error e => rw [h1, errBind] at h; cases h
  | ok ss =>
    rw [h1, okBind] at h
    cases h2 : spec.asObj with
    | error e => rw [h2, errBind] at h; cases h
    | ok specFs =>
      rw [h2, okBind] at h
      cases h3 : spec.index "components" with
      | error e => rw [h3, errBind] at h; cases h
      | ok comps =>
        rw [h3, okBind] at h
        cases h4 : comps.asObj with
        | error e => rw [h4, errBind] at h; cases h
        | ok compsFs =>
          rw [h4, okBind] at h
          cases h5 : buildPaths spec ops sel with
          | error e => rw [h5, errBind] at h; cases h
          | ok pathsF =>
            rw [h5, okBind] at h
            cases h6 : schemaFold spec ss with
            | error e => rw [h6, errBind] at h; cases h
            | ok schemaPairs =>
              rw [h6, okBind] at h
              have hred : red = Json.obj (pySetKey (pySetKey specFs "paths"
                  (Json.obj pathsF)) "components"
                  (Json.obj (pySetKey compsFs "schemas" (Json.obj schemaPairs)))) := by
                have h' : (Except.ok (Json.obj (pySetKey (pySetKey specFs "paths"
                    (Json.obj pathsF)) "components" (Json.obj (pySetKey compsFs "schemas"
                    (Json.obj schemaPairs))))) : Except PyErr Json) = .ok red := h
                simpa using h'.symm
              obtain ⟨fs0, hfs0, hlk⟩ := index_ok h3
              have hspec := asObj_ok h2
              have hfs : fs0 = specFs := by
                rw [hspec] at hfs0
                cases hfs0
                rfl
              have hcomps := asObj_ok h4
              exact ⟨ss, specFs, compsFs, pathsF, schemaPairs, rfl, hspec, by
                rw [← hfs]
                rw [hcomps] at hlk
                exact hlk, rfl, h6, hred⟩

/-- C8: reduction is a pure function of its inputs (in this embedding every
operation is a function of the document, catalog and selection and nothing
is mutated), and it preserves the frame: every top-level key other than
`paths` and `components` of the reduced document looks up to exactly the
original document's value, and every key of `components` other than
`schemas` is likewise untouched. -/
theorem C8_reduction_frame {spec : Json} {ops : List (Option String × Operation)}
    {sel : List String} {red : Json} (h : reduced_spec_of spec ops sel = .ok red) :
    (∀ k, k ≠ "paths" → k ≠ "components" → docLookup red k = docLookup spec k) ∧
      (∀ k, k ≠ "schemas" →
        (docLookup red "components").bind (fun c => docLookup c k) =
          (docLookup spec "components").bind (fun c => docLookup c k)) := by
  obtain ⟨ss, specFs, compsFs, pathsF, schemaPairs, hss, hspec, hcomp, hbp, hsf, hred⟩ :=
    reduced_spec_shape h
  subst hspec
  subst hred
  constructor
  · intro k hk1 hk2
    show dictLookup _ k = dictLookup specFs k
    rw [dictLookup_pySetKey_ne _ _ _ _ hk2, dictLookup_pySetKey_ne _ _ _ _ hk1]
  · intro k hk
    have h1 : docLookup (Json.obj (pySetKey (pySetKey specFs "paths" (Json.obj pathsF))
        "components" (Json.obj (pySetKey compsFs "schemas" (Json.obj schemaPairs)))))
        "components" = some (Json.obj (pySetKey compsFs "schemas" (Json.obj schemaPairs))) := by
      show dictLookup _ "components" = _
      rw [dictLookup_pySetKey_self]
    rw [h1]
    have h2 : docLookup (Json.obj specFs) "components" = some (Json.obj compsFs) := hcomp
    rw [h2]
    show docLookup (Json.obj (pySetKey compsFs "schemas" (Json.obj schemaPairs))) k =
      docLookup (Json.obj compsFs) k
    show dictLookup _ k = dictLookup compsFs k
    exact dictLookup_pySetKey_ne _ _ _ _ hk

/-- C8 witness: on a concrete document, `info` and
`components.securitySchemes` survive reduction unchanged. -/
theorem C8_reduction_frame_witness :
    reduced_spec_of exC8 [] [] = .ok exC8red ∧
      docLookup exC8red "info" = docLookup exC8 "info" ∧
      (docLookup exC8red "components").bind (fun c => docLookup c "securitySchemes") =
        (docLookup exC8 "components").bind (fun c => docLookup c "securitySchemes") :=
  ⟨rfl,
    (C8_reduction_frame (rfl : reduced_spec_of exC8 [] [] = .ok exC8red)).1 "info"
      (by decide) (by decide),
    (C8_reduction_frame (rfl : reduced_spec_of exC8 [] [] = .ok exC8red)).2
      "securitySchemes" (by decide)⟩

theorem ssFold_mem (ops : List (Option String × Operation)) :
    ∀ (sel : List String) (acc out : List String),
      sel.foldlM (ssStep ops) acc = .ok out →
      ∀ n, (n ∈ out ↔ n ∈ acc ∨
        ∃ id, id ∈ sel ∧ ∃ op, dictLookup ops (some id) = some op ∧ n ∈ op.schemas) := by
  intro sel
  induction sel with
  | nil =>
    intro acc out h n
    rw [List.foldlM_nil] at h
    have h' : (Except.ok acc : Except PyErr (List String)) = .ok out := h
    have : acc = out := by simpa using h'
    subst this
    simp
  | cons id rest ih =>
    intro acc out h n
    rw [List.foldlM_cons] at h
    cases hl : dictLookup ops (some id) with
    | none =>
      rw [show ssStep ops acc id = .error (.keyError id) by rw [ssStep, hl], errBind] at h
      cases h
    | some op =>
      rw [show ssStep ops acc id = .ok (acc ++ op.schemas) by rw [ssStep, hl]; rfl,
        okBind] at h
      rw [ih (acc ++ op.schemas) out h n]
      constructor
      · rintro (hmem | ⟨id', hid', op', hop', hn⟩)
        · rcases List.mem_append.mp hmem with h1 | h1
          · exact Or.inl h1
          · exact Or.inr ⟨id, List.mem_cons_self _ _, op, hl, h1⟩
        · exact Or.inr ⟨id', List.mem_cons_of_mem _ hid', op', hop', hn⟩
      · rintro (hmem | ⟨id', hid', op', hop', hn⟩)
        · exact Or.inl (List.mem_append_left _ hmem)
        · rcases List.mem_cons.mp hid' with h1 | h1
          · subst h1
            rw [hl] at hop'
            have : op = op' := by simpa using hop'
            subst this
            exact Or.inl (List.mem_append_right _ hn)
          · exact Or.inr ⟨id', h1, op', hop', hn⟩

theorem selected_schemas_of_mem {ops : List (Option String × Operation)}
    {sel : List String} {ss : List String} (h : selected_schemas_of ops sel = .ok ss)
    (n : String) :
    n ∈ ss ↔ ∃ id, id ∈ sel ∧ ∃ op, dictLookup ops (some id) = some op ∧ n ∈ op.schemas := by
  unfold selected_schemas_of at h
  cases hf : sel.foldlM (ssStep ops) [] with
  | error e => rw [hf, errBind] at h; cases h
  | ok all =>
    rw [hf, okBind] at h
    have h' : (Except.ok (pySet all) : Except PyErr (List String)) = .ok ss := h
    have hss : pySet all = ss := by simpa using h'
    rw [← hss, mem_pySet]
    have := ssFold_mem ops sel [] all hf n
    simpa using this

theorem selHits_mono (ops : List (Option String × Operation)) {S S' : List String}
    (hsub : ∀ x ∈ S, x ∈ S') (p v : String) (h : selHits ops S p v = true) :
    selHits ops S' p v = true := by
  rw [selHits, List.any_eq_true] at h ⊢
  obtain ⟨id, hid, hpred⟩ := h
  exact ⟨id, hsub id hid, hpred⟩

theorem bpStep_ok {spec : Json} {ops : List (Option String × Operation)}
    {paths : List (String × Json)} {id : String} {paths1 : List (String × Json)}
    (h : bpStep spec ops paths id = .ok paths1) :
    ∃ op curFs orig,
      dictLookup ops (some id) = some op ∧
      ((dictLookup paths op.path).getD (Json.obj [])).asObj = .ok curFs ∧
      pathVerbDoc spec op.path op.verb = some orig ∧
      paths1 = pySetKey paths op.path (Json.obj (pySetKey curFs op.verb orig)) := by
  unfold bpStep at h
  cases hop : dictLookup ops (some id) with
  | none => rw [hop] at h; cases h
  | some op =>
    rw [hop] at h
    simp only at h
    cases h1 : ((dictLookup paths op.path).getD (Json.obj [])).asObj with
    | error e => rw [h1, errBind] at h; cases h
    | ok curFs =>
      rw [h1, okBind] at h
      cases h2 : spec.index "paths" with
      | error e => rw [h2, errBind] at h; cases h
      | ok spPaths =>
        rw [h2, okBind] at h
        cases h3 : spPaths.index op.path with
        | error e => rw [h3, errBind] at h; cases h
        | ok item =>
          rw [h3, okBind] at h
          cases h4 : item.index op.verb with
          | error e => rw [h4, errBind] at h; cases h
          | ok orig =>
            rw [h4, okBind] at h
            have hp1 : paths1 = pySetKey paths op.path
                (Json.obj (pySetKey curFs op.verb orig)) := by
              have h' : (Except.ok (pySetKey paths op.path
                  (Json.obj (pySetKey curFs op.verb orig))) : Except PyErr _) =
                  .ok paths1 := h
              simpa using h'.symm
            refine ⟨op, curFs, orig, rfl, h1, ?_, hp1⟩
            obtain ⟨fs, hfs, hl1⟩ := index_ok h2
            obtain ⟨pfs, hpfs, hl2⟩ := index_ok h3
            obtain ⟨ifs, hifs, hl3⟩ := index_ok h4
            subst hfs
            subst hpfs
            subst hifs
            simp [pathVerbDoc, docLookup, hl1, hl2, hl3]

theorem pySetKey_objInv {paths : List (String × Json)}
    (hinv : ∀ kv ∈ paths, ∃ fs, kv.2 = Json.obj fs) (p : String)
    (fs' : List (String × Json)) :
    ∀ kv ∈ pySetKey paths p (Json.obj fs'), ∃ fs, kv.2 = Json.obj fs := by
  intro kv hkv
  rw [pySetKey] at hkv
  by_cases hany : paths.any (fun q => q.1 == p)
  · rw [if_pos hany] at hkv
    rcases List.mem_map.mp hkv with ⟨q, hq, hqe⟩
    by_cases hqp : q.1 == p
    · rw [if_pos hqp] at hqe
      exact ⟨fs', by rw [← hqe]⟩
    · rw [if_neg hqp] at hqe
      exact hinv q hq |>.imp (fun fs hfs => by rw [← hqe]; exact hfs)
  · rw [if_neg hany] at hkv
    rcases List.mem_append.mp hkv with h1 | h1
    · exact hinv kv h1
    · have : kv = (p, Json.obj fs') := by simpa using h1
      exact ⟨fs', by rw [this]⟩

theorem buildPaths_char (spec : Json) (ops : List (Option String × Operation)) :
    ∀ (sel : List String) (paths0 pathsF : List (String × Json)),
      sel.foldlM (bpStep spec ops) paths0 = .ok pathsF →
      (∀ kv ∈ paths0, ∃ fs, kv.2 = Json.obj fs) →
      ((∀ kv ∈ pathsF, ∃ fs, kv.2 = Json.obj fs) ∧
        ∀ p v, pvLookup pathsF p v =
          if selHits ops sel p v = true then pathVerbDoc spec p v
          else pvLookup paths0 p v) := by
  intro sel
  induction sel with
  | nil =>
    intro paths0 pathsF h hinv
    rw [List.foldlM_nil] at h
    have h' : (Except.ok paths0 : Except PyErr (List (String × Json))) = .ok pathsF := h
    have : paths0 = pathsF := by simpa using h'
    subst this
    refine ⟨hinv, ?_⟩
    intro p v
    simp [selHits]
  | cons id rest ih =>
    intro paths0 pathsF h hinv
    rw [List.foldlM_cons] at h
    cases hstep : bpStep spec ops paths0 id with
    | error e => rw [hstep, errBind] at h; cases h
    | ok paths1 =>
      rw [hstep, okBind] at h
      obtain ⟨op, curFs, orig, hop, hcur, hpvd, hp1⟩ := bpStep_ok hstep
      have hinv1 : ∀ kv ∈ paths1, ∃ fs, kv.2 = Json.obj fs := by
        rw [hp1]
        exact pySetKey_objInv hinv op.path (pySetKey curFs op.verb orig)
      obtain ⟨hinvF, hchar⟩ := ih paths1 pathsF h hinv1
      refine ⟨hinvF, ?_⟩
      intro p v
      have pv1 : pvLookup paths1 p v =
          if (op.path == p && op.verb == v) = true then some orig
          else pvLookup paths0 p v := by
        by_cases hpp : op.path = p
        · subst hpp
          have hself : dictLookup paths1 op.path =
              some (Json.obj (pySetKey curFs op.verb orig)) := by
            rw [hp1]
            exact dictLookup_pySetKey_self _ _ _
          rw [pvLookup, hself]
          by_cases hvv : op.verb = v
          · subst hvv
            have : docLookup (Json.obj (pySetKey curFs op.verb orig)) op.verb =
                some orig := by
              show dictLookup _ op.verb = some orig
              exact dictLookup_pySetKey_self _ _ _
            simp [this]
          · have hne : (op.verb == v) = false := by
              simp only [beq_eq_false_iff_ne, ne_eq]
              exact hvv
            have hlk : docLookup (Json.obj (pySetKey curFs op.verb orig)) v =
                dictLookup curFs v := by
              show dictLookup _ v = dictLookup curFs v
              exact dictLookup_pySetKey_ne _ _ _ _ (fun hc => hvv hc.symm)
            rw [hne]
            simp only [Bool.and_false, Bool.false_eq_true, if_false]
            cases hc : dictLookup paths0 op.path with
            | none =>
              have hnil : curFs = [] := by
                rw [hc] at hcur
                have h'' : (Except.ok ([] : List (String × Json)) :
                    Except PyErr (List (String × Json))) = .ok curFs := hcur
                simpa using h''
              rw [pvLookup, hc]
              show docLookup (Json.obj (pySetKey curFs op.verb orig)) v = none
              rw [hlk, hnil, dictLookup_nil]
            | some item =>
              obtain ⟨fs2, hfs2⟩ := hinv (op.path, item) (genDictLookup_mem hc)
              have hfs2' : item = Json.obj fs2 := hfs2
              have hcf : curFs = fs2 := by
                rw [hc] at hcur
                have hcur' : item.asObj = Except.ok curFs := hcur
                rw [hfs2'] at hcur'
                have h'' : (Except.ok fs2 : Except PyErr (List (String × Json))) =
                    .ok curFs := hcur'
                have := h''
                simp at this
                exact this.symm
              rw [pvLookup, hc]
              show docLookup (Json.obj (pySetKey curFs op.verb orig)) v = docLookup item v
              rw [hlk, hcf, hfs2']
              rfl
        · have hne : (op.path == p) = false := by
            simp only [beq_eq_false_iff_ne, ne_eq]
            exact hpp
          have hlk : dictLookup paths1 p = dictLookup paths0 p := by
            rw [hp1]
            exact dictLookup_pySetKey_ne _ _ _ _ (fun hc => hpp hc.symm)
          rw [hne]
          simp only [Bool.false_and, Bool.false_eq_true, if_false]
          rw [pvLookup, pvLookup, hlk]
      rw [hchar p v]
      have hsel_cons : selHits ops (id :: rest) p v =
          ((op.path == p && op.verb == v) || selHits ops rest p v) := by
        rw [selHits, List.any_cons, hop]
        rfl
      cases hrest : selHits ops rest p v with
      | true =>
        rw [hsel_cons, hrest, Bool.or_true]
        simp
      | false =>
        rw [hsel_cons, hrest, Bool.or_false]
        rw [if_neg Bool.false_ne_true]
        rw [pv1]
        cases hhead : (op.path == p && op.verb == v) with
        | true =>
          rw [if_pos rfl, if_pos rfl]
          have hpp : op.path = p := by
            have := (Bool.and_eq_true _ _).mp hhead
            simpa using this.1
          have hvv2 : op.verb = v := by
            have := (Bool.and_eq_true _ _).mp hhead
            simpa using this.2
          rw [← hpp, ← hvv2, hpvd]
        | false =>
          rw [if_neg Bool.false_ne_true, if_neg Bool.false_ne_true]

/-- C7: selection monotonicity — for selections S ⊆ S' over the same
document and catalog, the union of selected schema sets over S is contained
in the union over S', and every `(path, verb)` entry of the document reduced
with S is present, with the same operation object, in the document reduced
with S'. -/
theorem C7_selection_monotone {spec : Json} {ops : List (Option String × Operation)}
    {S S' : List String} {ss ss' : List String} {r r' : Json}
    (hsub : ∀ x ∈ S, x ∈ S')
    (hss : selected_schemas_of ops S = .ok ss)
    (hss' : selected_schemas_of ops S' = .ok ss')
    (hr : reduced_spec_of spec ops S = .ok r)
    (hr' : reduced_spec_of spec ops S' = .ok r') :
    (∀ n, n ∈ ss → n ∈ ss') ∧
      (∀ p v j, pathVerbDoc r p v = some j → pathVerbDoc r' p v = some j) := by
  constructor
  · intro n hn
    rw [selected_schemas_of_mem hss n] at hn
    rw [selected_schemas_of_mem hss' n]
    obtain ⟨id, hid, op, hop, hmem⟩ := hn
    exact ⟨id, hsub id hid, op, hop, hmem⟩
  · intro p v j hj
    obtain ⟨ss1, specFs, compsFs, pathsF, schemaPairs, _, hspec, hcomp, hbp, hsf, hred⟩ :=
      reduced_spec_shape hr
    obtain ⟨ss2, specFs', compsFs', pathsF', schemaPairs', _, hspec', hcomp', hbp', hsf',
      hred'⟩ := reduced_spec_shape hr'
    have hrp : docLookup r "paths" = some (Json.obj pathsF) := by
      rw [hred]
      show dictLookup _ "paths" = _
      rw [dictLookup_pySetKey_ne _ _ _ _ (by decide : "paths" ≠ "components")]
      exact dictLookup_pySetKey_self _ _ _
    have hrp' : docLookup r' "paths" = some (Json.obj pathsF') := by
      rw [hred']
      show dictLookup _ "paths" = _
      rw [dictLookup_pySetKey_ne _ _ _ _ (by decide : "paths" ≠ "components")]
      exact dictLookup_pySetKey_self _ _ _
    have hpv : pathVerbDoc r p v = pvLookup pathsF p v := by
      rw [pathVerbDoc, hrp]
      rfl
    have hpv' : pathVerbDoc r' p v = pvLookup pathsF' p v := by
      rw [pathVerbDoc, hrp']
      rfl
    obtain ⟨_, hchar⟩ := buildPaths_char spec ops S [] pathsF hbp
      (by intro kv hkv; simp at hkv)
    obtain ⟨_, hchar'⟩ := buildPaths_char spec ops S' [] pathsF' hbp'
      (by intro kv hkv; simp at hkv)
    rw [hpv, hchar p v] at hj
    cases hS : selHits ops S p v with
    | false =>
      rw [hS] at hj
      rw [if_neg Bool.false_ne_true] at hj
      rw [pvLookup, dictLookup_nil] at hj
      cases hj
    | true =>
      rw [hS, if_pos rfl] at hj
      have hS' : selHits ops S' p v = true := selHits_mono ops hsub p v hS
      rw [hpv', hchar' p v, hS', if_pos rfl]
      exact hj

/-- C7 witness: on a concrete two-operation document, growing the selection
from `{a}` to `{a, b}` keeps `Pet` selected and keeps the `(/x, get)` entry
with the same operation object. -/
theorem C7_selection_monotone_witness :
    "Pet" ∈ (["Pet", "Tag"] : List String) ∧
      pathVerbDoc wRedS2 "/x" "get" = some wGetOp :=
  ⟨(C7_selection_monotone (by decide)
      (rfl : selected_schemas_of wOps ["a"] = .ok ["Pet"])
      (rfl : selected_schemas_of wOps ["a", "b"] = .ok ["Pet", "Tag"])
      (rfl : reduced_spec_of wSpec wOps ["a"] = .ok wRedS)
      (rfl : reduced_spec_of wSpec wOps ["a", "b"] = .ok wRedS2)).1 "Pet" (by decide),
    (C7_selection_monotone (by decide)
      (rfl : selected_schemas_of wOps ["a"] = .ok ["Pet"])
      (rfl : selected_schemas_of wOps ["a", "b"] = .ok ["Pet", "Tag"])
      (rfl : reduced_spec_of wSpec wOps ["a"] = .ok wRedS)
      (rfl : reduced_spec_of wSpec wOps ["a", "b"] = .ok wRedS2)).2 "/x" "get" wGetOp
      (by rfl)⟩

theorem bind_ok_iff {ε α β : Type} (x : Except ε α) (f : α → Except ε β) (b : β) :
    (x >>= f) = .ok b ↔ ∃ a, x = .ok a ∧ f a = .ok b := by
  cases x with
  | error e =>
    rw [errBind]
    constructor
    · intro h; cases h
    · rintro ⟨a, ha, _⟩; cases ha
  | ok a =>
    rw [okBind]
    constructor
    · intro h; exact ⟨a, rfl, h⟩
    · rintro ⟨a', ha', hf⟩
      have : a = a' := by
        have h' := ha'
        simp at h'
        exact h'
      rw [this]
      exact hf

theorem ppStep_ok {path : String} {idx : List (String × String)} {fuel : Nat}
    {result : List Operation} {vo : String × Json} {result' : List Operation}
    (h : ppStep path idx fuel result vo = .ok result') :
    ∃ op1 : Operation, result' = result ++ [op1] ∧ op1.verb = vo.1 ∧ op1.path = path := by
  unfold ppStep at h
  rw [bind_ok_iff] at h
  obtain ⟨bodyOpt, _, h⟩ := h
  rw [bind_ok_iff] at h
  obtain ⟨schemas0, _, h⟩ := h
  rw [bind_ok_iff] at h
  obtain ⟨responses, _, h⟩ := h
  rw [bind_ok_iff] at h
  obtain ⟨rf, _, h⟩ := h
  rw [bind_ok_iff] at h
  obtain ⟨schemas1, _, h⟩ := h
  rw [bind_ok_iff] at h
  obtain ⟨schemas2, _, h⟩ := h
  rw [bind_ok_iff] at h
  obtain ⟨tag, _, h⟩ := h
  rw [bind_ok_iff] at h
  obtain ⟨opId, _, h⟩ := h
  rw [bind_ok_iff] at h
  obtain ⟨summary, _, h⟩ := h
  have h' : (Except.ok (result ++ [(⟨opId, vo.1, path, summary, tag, pySet schemas2⟩ :
      Operation)]) : Except PyErr (List Operation)) = .ok result' := h
  have hr : result ++ [(⟨opId, vo.1, path, summary, tag, pySet schemas2⟩ : Operation)] =
      result' := by simpa using h'
  exact ⟨⟨opId, vo.1, path, summary, tag, pySet schemas2⟩, hr.symm, rfl, rfl⟩

theorem ppFold_shape {path : String} {idx : List (String × String)} {fuel : Nat} :
    ∀ (V : List (String × Json)) (acc res : List Operation),
      V.foldlM (ppStep path idx fuel) acc = .ok res →
      res.map (fun op => op.verb) = acc.map (fun op => op.verb) ++ V.map Prod.fst ∧
        ∀ op ∈ res, op ∈ acc ∨ op.path = path := by
  intro V
  induction V with
  | nil =>
    intro acc res h
    rw [List.foldlM_nil] at h
    have h' : (Except.ok acc : Except PyErr (List Operation)) = .ok res := h
    have : acc = res := by simpa using h'
    subst this
    exact ⟨by simp, fun op hop => Or.inl hop⟩
  | cons vo V ih =>
    intro acc res h
    rw [List.foldlM_cons] at h
    cases hstep : ppStep path idx fuel acc vo with
    | error e => rw [hstep, errBind] at h; cases h
    | ok acc1 =>
      rw [hstep, okBind] at h
      obtain ⟨op1, hacc1, hverb, hpath⟩ := ppStep_ok hstep
      obtain ⟨hmap, hmem⟩ := ih acc1 res h
      constructor
      · rw [hmap, hacc1]
        simp [hverb]
      · intro op hop
        rcases hmem op hop with h1 | h1
        · rw [hacc1] at h1
          rcases List.mem_append.mp h1 with h2 | h2
          · exact Or.inl h2
          · have : op = op1 := by simpa using h2
            exact Or.inr (this ▸ hpath)
        · exact Or.inr h1

theorem parse_path_ok {path : String} {item : Json} {idx : List (String × String)}
    {fuel : Nat} {res : List Operation} (h : parse_path path item idx fuel = .ok res) :
    ∃ V, item = Json.obj V ∧ res.map (fun op => op.verb) = V.map Prod.fst ∧
      ∀ op ∈ res, op.path = path := by
  unfold parse_path at h
  rw [bind_ok_iff] at h
  obtain ⟨V, hV, h⟩ := h
  obtain ⟨hmap, hmem⟩ := ppFold_shape V [] res h
  refine ⟨V, asObj_ok hV, by simpa using hmap, ?_⟩
  intro op hop
  rcases hmem op hop with h1 | h1
  · simp at h1
  · exact h1

theorem olFold_ext {idx : List (String × String)} {fuel : Nat} :
    ∀ (P : List (String × Json)) (acc out : List Operation),
      P.foldlM (olStep idx fuel) acc = .ok out → ∃ t, out = acc ++ t := by
  intro P
  induction P with
  | nil =>
    intro acc out h
    rw [List.foldlM_nil] at h
    have h' : (Except.ok acc : Except PyErr (List Operation)) = .ok out := h
    exact ⟨[], by simpa using h'.symm⟩
  | cons p P ih =>
    intro acc out h
    rw [List.foldlM_cons] at h
    cases hstep : olStep idx fuel acc p with
    | error e => rw [hstep, errBind] at h; cases h
    | ok acc1 =>
      rw [hstep, okBind] at h
      have hext : ∃ t1, acc1 = acc ++ t1 := by
        unfold olStep at hstep
        rw [bind_ok_iff] at hstep
        obtain ⟨ops1, _, hp⟩ := hstep
        have h' : (Except.ok (acc ++ ops1) : Except PyErr (List Operation)) = .ok acc1 := hp
        exact ⟨ops1, by simpa using h'.symm⟩
      obtain ⟨t1, ht1⟩ := hext
      obtain ⟨t2, ht2⟩ := ih acc1 out h
      exact ⟨t1 ++ t2, by rw [ht2, ht1, List.append_assoc]⟩

theorem olFold_shape {idx : List (String × String)} {fuel : Nat} :
    ∀ (P : List (String × Json)) (acc out : List Operation),
      P.foldlM (olStep idx fuel) acc = .ok out →
      ((∀ op ∈ out, op ∈ acc ∨ ∃ item fs, (op.path, item) ∈ P ∧ item = Json.obj fs ∧
          op.verb ∈ fs.map Prod.fst) ∧
        (∀ p item, (p, item) ∈ P → ∃ fs, item = Json.obj fs ∧
          ∀ v ∈ fs.map Prod.fst, ∃ op ∈ out, op.path = p ∧ op.verb = v)) := by
  intro P
  induction P with
  | nil =>
    intro acc out h
    rw [List.foldlM_nil] at h
    have h' : (Except.ok acc : Except PyErr (List Operation)) = .ok out := h
    have : acc = out := by simpa using h'
    subst this
    exact ⟨fun op hop => Or.inl hop, fun p item hmem => by simp at hmem⟩
  | cons q P ih =>
    intro acc out h
    rw [List.foldlM_cons] at h
    cases hstep : olStep idx fuel acc q with
    | error e => rw [hstep, errBind] at h; cases h
    | ok acc1 =>
      rw [hstep, okBind] at h
      have hstep' := hstep
      unfold olStep at hstep'
      rw [bind_ok_iff] at hstep'
      obtain ⟨res, hpp, hpure⟩ := hstep'
      have hacc1 : acc1 = acc ++ res := by
        have h' : (Except.ok (acc ++ res) : Except PyErr (List Operation)) = .ok acc1 := hpure
        have := h'
        simp at this
        exact this.symm
      obtain ⟨V, hitem, hmap, hpaths⟩ := parse_path_ok hpp
      obtain ⟨ih1, ih2⟩ := ih acc1 out h
      obtain ⟨tout, htout⟩ := olFold_ext P acc1 out h
      constructor
      · intro op hop
        rcases ih1 op hop with h1 | h1
        · rw [hacc1] at h1
          rcases List.mem_append.mp h1 with h2 | h2
          · exact Or.inl h2
          · refine Or.inr ⟨q.2, V, ?_, hitem, ?_⟩
            · rw [hpaths op h2]
              exact List.mem_cons_self _ _
            · rw [← hmap]
              exact List.mem_map_of_mem _ h2
        · obtain ⟨item, fs, hmem, hobj, hverb⟩ := h1
          exact Or.inr ⟨item, fs, List.mem_cons_of_mem _ hmem, hobj, hverb⟩
      · intro p item hmem
        rcases List.mem_cons.mp hmem with h1 | h1
        · have hq1 : q.1 = p := by
            have := congrArg Prod.fst h1.symm
            simpa using this
          have hq2 : q.2 = item := by
            have := congrArg Prod.snd h1.symm
            simpa using this
          refine ⟨V, by rw [← hq2]; exact hitem, ?_⟩
          intro v hv
          rw [← hmap] at hv
          rcases List.mem_map.mp hv with ⟨op, hop, hopv⟩
          refine ⟨op, ?_, by rw [hpaths op hop, hq1], hopv⟩
          rw [htout, hacc1]
          exact List.mem_append_left _ (List.mem_append_right _ hop)
        · obtain ⟨fs, hobj, hall⟩ := ih2 p item h1
          exact ⟨fs, hobj, hall⟩

theorem sfStep_ok {spec : Json} {acc : List (String × Json)} {name : String}
    {acc' : List (String × Json)} (h : sfStep spec acc name = .ok acc') :
    ∃ v, schemaLookupDoc spec name = some v ∧ acc' = pySetKey acc name v := by
  unfold sfStep at h
  rw [bind_ok_iff] at h
  obtain ⟨comps, h1, h⟩ := h
  rw [bind_ok_iff] at h
  obtain ⟨sch, h2, h⟩ := h
  rw [bind_ok_iff] at h
  obtain ⟨v, h3, h⟩ := h
  have hacc : acc' = pySetKey acc name v := by
    have h' : (Except.ok (pySetKey acc name v) : Except PyErr (List (String × Json))) =
        .ok acc' := h
    have := h'
    simp at this
    exact this.symm
  obtain ⟨fs, hfs, hl1⟩ := index_ok h1
  obtain ⟨cfs, hcfs, hl2⟩ := index_ok h2
  obtain ⟨sfs, hsfs, hl3⟩ := index_ok h3
  subst hfs
  subst hcfs
  subst hsfs
  exact ⟨v, by simp [schemaLookupDoc, docLookup, hl1, hl2, hl3], hacc⟩

theorem schemaFold_char {spec : Json} :
    ∀ (ss : List String) (acc pairs : List (String × Json)),
      ss.foldlM (sfStep spec) acc = .ok pairs →
      ∀ n, dictLookup pairs n =
        if n ∈ ss then schemaLookupDoc spec n else dictLookup acc n := by
  intro ss
  induction ss with
  | nil =>
    intro acc pairs h n
    rw [List.foldlM_nil] at h
    have h' : (Except.ok acc : Except PyErr (List (String × Json))) = .ok pairs := h
    have : acc = pairs := by simpa using h'
    subst this
    simp
  | cons name rest ih =>
    intro acc pairs h n
    rw [List.foldlM_cons] at h
    cases hstep : sfStep spec acc name with
    | error e => rw [hstep, errBind] at h; cases h
    | ok acc1 =>
      rw [hstep, okBind] at h
      obtain ⟨v, hv, hacc1⟩ := sfStep_ok hstep
      rw [ih acc1 pairs h n]
      by_cases hr : n ∈ rest
      · rw [if_pos hr, if_pos (List.mem_cons_of_mem _ hr)]
      · rw [if_neg hr]
        by_cases hn : n = name
        · subst hn
          rw [hacc1, dictLookup_pySetKey_self, if_pos (List.mem_cons_self _ _), hv]
        · rw [hacc1, dictLookup_pySetKey_ne _ _ _ _ hn,
            if_neg (by simp [List.mem_cons, hn, hr])]

theorem catalog_lookup_of_mem {opsList : List Operation}
    (hids : (opsList.map Operation.op_id).Nodup) {op : Operation} (hop : op ∈ opsList) :
    dictLookup (pyDict (opsList.map (fun o => (o.op_id, o)))) op.op_id = some op := by
  rw [dictLookup_pyDict]
  have hn : ((opsList.map (fun o => (o.op_id, o))).map Prod.fst).Nodup := by
    rw [List.map_map]
    exact hids
  have hkv : ((op.op_id, op) : Option String × Operation) ∈
      opsList.map (fun o => (o.op_id, o)) := List.mem_map_of_mem _ hop
  have := lastLookup_of_nodup hn hkv
  simpa using this

theorem catalog_mem_of_lookup {opsList : List Operation} {k : Option String}
    {op : Operation}
    (h : dictLookup (pyDict (opsList.map (fun o => (o.op_id, o)))) k = some op) :
    op ∈ opsList ∧ op.op_id = k := by
  rw [dictLookup_pyDict] at h
  have hmem := lastLookup_mem h
  rcases List.mem_map.mp hmem with ⟨o, ho, hko⟩
  have h1 : o = op := congrArg Prod.snd hko
  have h2 : o.op_id = k := congrArg Prod.fst hko
  exact ⟨h1 ▸ ho, h1 ▸ h2⟩

/-- C1 (amended): reducing a document with every operation identifier
selected (identifiers present and pairwise distinct) yields a document that
agrees with the original at every `(path, verb)` entry of `paths`, while
`components.schemas` retains exactly the schemas reachable from the
operations: a name is kept if and only if it lies in some operation's
transitively closed schema set, and each kept definition is copied
verbatim — so a schema referenced by no operation (an orphan) is dropped
rather than round-tripped. -/
theorem C1_full_selection_roundtrip {spec : Json} {idx : List (String × String)}
    {fuel : Nat} {opsList : List Operation} {P : List (String × Json)}
    {ops : List (Option String × Operation)} {sel : List String}
    {red : Json} {ss : List String}
    (hP : spec.index "paths" = .ok (Json.obj P))
    (holist : operations_list_of spec idx fuel = .ok opsList)
    (hids : (opsList.map Operation.op_id).Nodup)
    (hsome : ∀ op ∈ opsList, (Operation.op_id op).isSome = true)
    (hcat : ops = pyDict (opsList.map (fun op => (op.op_id, op))))
    (hsel : sel = opsList.filterMap Operation.op_id)
    (hred : reduced_spec_of spec ops sel = .ok red)
    (hss : selected_schemas_of ops sel = .ok ss) :
    (∀ p v, pathVerbDoc red p v = pathVerbDoc spec p v) ∧
      (∀ n, n ∈ ss ↔ ∃ op ∈ opsList, n ∈ op.schemas) ∧
      (∀ n, schemaLookupDoc red n =
        if n ∈ ss then schemaLookupDoc spec n else none) := by
  subst hcat
  subst hsel
  obtain ⟨ss1, specFs, compsFs, pathsF, schemaPairs, hss1, hspec, hcomp, hbp, hsf, hredv⟩ :=
    reduced_spec_shape hred
  have hss1' : ss1 = ss := by
    rw [hss] at hss1
    exact (by simpa using hss1 : ss = ss1).symm
  rw [hss1'] at hsf
  have holist' := holist
  unfold operations_list_of at holist'
  rw [hP, okBind] at holist'
  rw [show (Json.obj P).asObj = Except.ok P from rfl, okBind] at holist'
  obtain ⟨holist1, holist2⟩ := olFold_shape P [] opsList holist'
  obtain ⟨fs0, hfs0, hlP⟩ := index_ok hP
  have hfs0' : fs0 = specFs := by
    rw [hspec] at hfs0
    exact (by simpa using hfs0 : specFs = fs0).symm
  rw [hfs0'] at hlP
  refine ⟨?_, ?_, ?_⟩
  · intro p v
    have hrp : docLookup red "paths" = some (Json.obj pathsF) := by
      rw [hredv]
      show dictLookup _ "paths" = _
      rw [dictLookup_pySetKey_ne _ _ _ _ (by decide : "paths" ≠ "components")]
      exact dictLookup_pySetKey_self _ _ _
    have hpveq : pathVerbDoc red p v = pvLookup pathsF p v := by
      rw [pathVerbDoc, hrp]
      rfl
    have hbp' : (opsList.filterMap Operation.op_id).foldlM
        (bpStep spec (pyDict (opsList.map (fun op => (op.op_id, op))))) [] =
        .ok pathsF := hbp
    obtain ⟨_, hchar⟩ := buildPaths_char spec (pyDict (opsList.map (fun op => (op.op_id, op))))
      (opsList.filterMap Operation.op_id) [] pathsF hbp' (by intro kv hkv; simp at hkv)
    rw [hpveq, hchar p v]
    have hspecpv : pathVerbDoc spec p v =
        (dictLookup P p).bind (fun item => docLookup item v) := by
      rw [pathVerbDoc, hspec]
      show (dictLookup specFs "paths").bind _ = _
      rw [hlP]
      rfl
    cases hS : selHits (pyDict (opsList.map (fun op => (op.op_id, op))))
        (opsList.filterMap Operation.op_id) p v with
    | true => rw [if_pos rfl]
    | false =>
      rw [if_neg Bool.false_ne_true]
      rw [hspecpv]
      cases hPp : dictLookup P p with
      | none => rfl
      | some item =>
        obtain ⟨fs3, hobj3, hall⟩ := holist2 p item (genDictLookup_mem hPp)
        cases hit : docLookup item v with
        | none =>
          show pvLookup [] p v = docLookup item v
          rw [hit]
          rfl
        | some j =>
          exfalso
          have hvkey : v ∈ fs3.map Prod.fst := by
            rw [hobj3] at hit
            have : dictLookup fs3 v = some j := hit
            exact List.mem_map.mpr ⟨(v, j), genDictLookup_mem this, rfl⟩
          obtain ⟨op, hopmem, hopp, hopv⟩ := hall v hvkey
          obtain ⟨i, hi⟩ := Option.isSome_iff_exists.mp (hsome op hopmem)
          have hisel : i ∈ opsList.filterMap Operation.op_id :=
            List.mem_filterMap.mpr ⟨op, hopmem, hi⟩
          have hlook : dictLookup (pyDict (opsList.map (fun o => (o.op_id, o))))
              (some i) = some op := by
            rw [← hi]
            exact catalog_lookup_of_mem hids hopmem
          have htrue : selHits (pyDict (opsList.map (fun op => (op.op_id, op))))
              (opsList.filterMap Operation.op_id) p v = true := by
            rw [selHits, List.any_eq_true]
            refine ⟨i, hisel, ?_⟩
            rw [hlook]
            simp [hopp, hopv]
          rw [hS] at htrue
          cases htrue
  · intro n
    rw [selected_schemas_of_mem hss n]
    constructor
    · rintro ⟨i, hi, op', hop', hmem⟩
      obtain ⟨h1, _⟩ := catalog_mem_of_lookup hop'
      exact ⟨op', h1, hmem⟩
    · rintro ⟨op, hopmem, hmem⟩
      obtain ⟨i, hi⟩ := Option.isSome_iff_exists.mp (hsome op hopmem)
      refine ⟨i, List.mem_filterMap.mpr ⟨op, hopmem, hi⟩, op, ?_, hmem⟩
      rw [← hi]
      exact catalog_lookup_of_mem hids hopmem
  · intro n
    have h1 : docLookup red "components" =
        some (Json.obj (pySetKey compsFs "schemas" (Json.obj schemaPairs))) := by
      rw [hredv]
      show dictLookup _ "components" = _
      exact dictLookup_pySetKey_self _ _ _
    have h2 : schemaLookupDoc red n = dictLookup schemaPairs n := by
      rw [schemaLookupDoc, h1]
      show (docLookup (Json.obj (pySetKey compsFs "schemas" (Json.obj schemaPairs)))
        "schemas").bind _ = _
      rw [show docLookup (Json.obj (pySetKey compsFs "schemas" (Json.obj schemaPairs)))
        "schemas" = some (Json.obj schemaPairs) from dictLookup_pySetKey_self _ _ _]
      rfl
    rw [h2]
    have hsf' : ss.foldlM (sfStep spec) [] = .ok schemaPairs := hsf
    rw [schemaFold_char ss [] schemaPairs hsf' n]
    by_cases hn : n ∈ ss
    · rw [if_pos hn, if_pos hn]
    · rw [if_neg hn, if_neg hn, dictLookup_nil]

/-- C1 counterexample: with the single operation `getPets` (all of the
document's operation identifiers) selected, the reduced document's
`components.schemas` is missing the entry `Orphan` that the original
document carries — the claimed round-trip of the schemas object fails. -/
theorem C1_counterexample :
    (load_api_spec exC1 9).map (fun t => t.2.2.1) = .ok exC1cat ∧
      reduced_spec_of exC1 exC1cat ["getPets"] = .ok exC1red ∧
      schemaLookupDoc exC1 "Orphan" = some (Json.obj [("type", Json.str "string")]) ∧
      schemaLookupDoc exC1red "Orphan" = none :=
  ⟨rfl, rfl, rfl, rfl⟩

/-- C1 witness: the amended round-trip theorem applied to `exC1`. -/
theorem C1_full_selection_roundtrip_witness :
    (pathVerbDoc exC1red "/pets" "get" = pathVerbDoc exC1 "/pets" "get") ∧
      ("Orphan" ∈ (["Pet", "Tag"] : List String) ↔
        ∃ op ∈ exC1ops, "Orphan" ∈ op.schemas) ∧
      schemaLookupDoc exC1red "Orphan" =
        (if "Orphan" ∈ (["Pet", "Tag"] : List String)
          then schemaLookupDoc exC1 "Orphan" else none) :=
  ⟨(C1_full_selection_roundtrip
      (rfl : exC1.index "paths" = .ok (Json.obj exC1P))
      (rfl : operations_list_of exC1 exC1idx 9 = .ok exC1ops) (by decide) (by decide)
      rfl rfl
      (rfl : reduced_spec_of exC1 exC1cat ["getPets"] = .ok exC1red)
      (rfl : selected_schemas_of exC1cat ["getPets"] = .ok ["Pet", "Tag"])).1
      "/pets" "get",
    (C1_full_selection_roundtrip
      (rfl : exC1.index "paths" = .ok (Json.obj exC1P))
      (rfl : operations_list_of exC1 exC1idx 9 = .ok exC1ops) (by decide) (by decide)
      rfl rfl
      (rfl : reduced_spec_of exC1 exC1cat ["getPets"] = .ok exC1red)
      (rfl : selected_schemas_of exC1cat ["getPets"] = .ok ["Pet", "Tag"])).2.1
      "Orphan",
    (C1_full_selection_roundtrip
      (rfl : exC1.index "paths" = .ok (Json.obj exC1P))
      (rfl : operations_list_of exC1 exC1idx 9 = .ok exC1ops) (by decide) (by decide)
      rfl rfl
      (rfl : reduced_spec_of exC1 exC1cat ["getPets"] = .ok exC1red)
      (rfl : selected_schemas_of exC1cat ["getPets"] = .ok ["Pet", "Tag"])).2.2
      "Orphan"⟩

